import Mathlib

/-!
Verification of the MacSyFinder detection core against its specification.

Each namespace below is a shallow embedding of one source module:

* `Mcs.Coloc`    — `macsypy/cluster.py` (`_collocates`, `_clusterize`, `Cluster`)
* `Mcs.ModelM`   — `macsypy/model.py` (`Model.__init__` and quorum properties)
* `Mcs.ScoreC`   — `macsypy/cluster.py` (`Cluster.score`) and
                   `macsypy/system.py` (`System.score`)
* `Mcs.Sel`      — `macsypy/score.py` (`ComposedScore`, `BestSystemSelector`)
* `Mcs.MultiSys` — `macsypy/cluster.py` (`set_multi_system_hit`)
* `Mcs.Loners`   — `macsypy/cluster.py` (`_get_true_loners`)
* `Mcs.SysM`     — `macsypy/system.py` (`match`, `System.__init__`)

Python floats are modelled as rationals (`Rat`), machine integers as `Int`
or `Nat`, Python exceptions as `Except PyErr`.  Auxiliary data classes that
live in files absent from the tree (`hit.py`, `gene.py`) are modelled from
the specification's data-model section; this is flagged in doc comments.
-/

namespace Mcs

/-- Python exception kinds raised by the embedded code paths. -/
inductive PyErr where
  | macsypyError (msg : String)
  | modelInconsistencyError (msg : String)
  | keyError
  | indexError
  | unboundLocalError
  | stopIteration
  deriving DecidableEq

/-- `macsypy.gene.GeneStatus` (gene.py is absent from the tree;
the enum members are those used by `cluster.py` and `system.py`). -/
inductive GeneStatus where
  | mandatory
  | accessory
  | neutral
  | forbidden
  deriving DecidableEq

namespace ModelM

/-!  Embedding of `macsypy/model.py`, class `Model`.  Gene objects are
reduced to their names: `min_mandatory_genes_required` and
`min_genes_required` only read `len(self._mandatory_genes)`. -/

/-- The state of a `Model` object (`macsypy/model.py`, `Model.__init__`).
`max_nb_genes` and `multi_loci` are stored untouched. -/
structure ModelData where
  fqn : String
  interGeneMaxSpace : Int
  minMandatoryGenesRequiredOpt : Option Int
  minGenesRequiredOpt : Option Int
  maxNbGenes : Option Int
  multiLoci : Bool
  mandatoryGenes : List String
  accessoryGenes : List String
  forbiddenGenes : List String
  deriving DecidableEq

/-- `Model.__init__`: stores the parameters, raises `ModelInconsistencyError`
iff both quorum parameters are supplied and
`min_genes_required < min_mandatory_genes_required`; the gene lists start
empty. -/
def mkModel (fqn : String) (igms : Int) (mmg mg : Option Int)
    (maxNb : Option Int) (multiLoci : Bool) : Except PyErr ModelData :=
  match mmg, mg with
  | some a, some b =>
    if b < a then
      .error (.modelInconsistencyError
        (fqn ++ ": min_genes_required must be greater or equal than min_mandatory_genes_required"))
    else
      .ok { fqn := fqn, interGeneMaxSpace := igms,
            minMandatoryGenesRequiredOpt := some a, minGenesRequiredOpt := some b,
            maxNbGenes := maxNb, multiLoci := multiLoci,
            mandatoryGenes := [], accessoryGenes := [], forbiddenGenes := [] }
  | _, _ =>
      .ok { fqn := fqn, interGeneMaxSpace := igms,
            minMandatoryGenesRequiredOpt := mmg, minGenesRequiredOpt := mg,
            maxNbGenes := maxNb, multiLoci := multiLoci,
            mandatoryGenes := [], accessoryGenes := [], forbiddenGenes := [] }

/-- `Model.add_mandatory_gene`. -/
def addMandatoryGene (m : ModelData) (g : String) : ModelData :=
  { m with mandatoryGenes := m.mandatoryGenes ++ [g] }

/-- `Model.min_mandatory_genes_required` property: the stored value, or the
number of mandatory genes currently added when it was not supplied. -/
def ModelData.minMandatoryGenesRequired (m : ModelData) : Int :=
  match m.minMandatoryGenesRequiredOpt with
  | none => m.mandatoryGenes.length
  | some v => v

/-- `Model.min_genes_required` property: the stored value, or the number of
mandatory genes currently added when it was not supplied. -/
def ModelData.minGenesRequired (m : ModelData) : Int :=
  match m.minGenesRequiredOpt with
  | none => m.mandatoryGenes.length
  | some v => v

end ModelM

namespace Coloc

/-!  Embedding of `macsypy/cluster.py`, function `_collocates`. -/

inductive Topology where
  | linear
  | circular
  deriving DecidableEq

/-- `macsypy.Indexes.RepliconInfo`: topology and position bounds. -/
structure RepInfo where
  topology : Topology
  min : Int
  max : Int
  deriving DecidableEq

/-- The part of a model gene read by `_collocates`: its optional per-gene
`inter_gene_max_space` override, the `inter_gene_max_space` of its owning
model (the `gene.model` back-pointer flattened to the single field that is
read, as the spec's design notes direct), plus the flags read elsewhere in
`cluster.py`.  Gene objects come from the absent `gene.py`; fields are
modelled from the spec's data model. -/
structure GeneRef where
  name : String
  loner : Bool
  interGeneMaxSpace : Option Int
  modelInterGeneMaxSpace : Int
  deriving DecidableEq

/-- `macsypy.hit.ModelHit` as consumed by the clusterizer (hit.py is absent;
fields modelled from the spec's data model): ordinal position, score,
replicon name, the name of the gene the profile matched, and the model gene
it satisfies (`gene_ref`). -/
structure MHit where
  id : Nat
  geneName : String
  repliconName : String
  position : Int
  score : Rat
  geneRef : GeneRef
  deriving DecidableEq

/-- `_collocates(h1, h2, rep_info)`: the per-gene `inter_gene_max_space`
overrides select the bound (min of both when both set, the defined one when
one is set, the model's value when none), then the inter-hit gene count is
tested, with a wraparound re-test on circular replicons. -/
def collocates (h1 h2 : MHit) (repInfo : RepInfo) : Bool :=
  let dist := h2.position - h1.position - 1
  let g1 := h1.geneRef
  let g2 := h2.geneRef
  let igms : Int :=
    match g1.interGeneMaxSpace, g2.interGeneMaxSpace with
    | none, none => g1.modelInterGeneMaxSpace
    | none, some d2 => d2
    | some d1, none => d1
    | some d1, some d2 => min d1 d2
  if 0 ≤ dist ∧ dist ≤ igms then
    true
  else if dist ≤ 0 ∧ repInfo.topology = Topology.circular then
    repInfo.max - h1.position + h2.position - repInfo.min ≤ igms
  else
    false

/-- The bound `D` exactly as the claim describes its selection. -/
def effectiveD (h1 h2 : MHit) : Int :=
  match h1.geneRef.interGeneMaxSpace, h2.geneRef.interGeneMaxSpace with
  | none, none => h1.geneRef.modelInterGeneMaxSpace
  | none, some d2 => d2
  | some d1, none => d1
  | some d1, some d2 => min d1 d2

/-- `Cluster._check_replicon_consistency` (`macsypy/cluster.py`):
`self.hits[0].replicon_name` (IndexError on an empty hit list), then fail
with `MacsypyError` unless every hit carries the same replicon name. -/
def checkRepliconConsistency (hits : List MHit) : Except PyErr Unit :=
  match hits with
  | [] => .error .indexError
  | h0 :: _ =>
    if hits.all (fun h => h.repliconName == h0.repliconName) then .ok ()
    else .error (.macsypyError "Cannot build a cluster from hits coming from different replicons")

/-- `Cluster.__init__`: store the hits as passed and run the replicon
consistency check.  A cluster is represented by its hit list. -/
def mkClusterHits (hits : List MHit) : Except PyErr (List MHit) :=
  match checkRepliconConsistency hits with
  | .ok _ => .ok hits
  | .error e => .error e

/-- `Cluster.replicon_name` property: `self.hits[0].replicon_name`. -/
def clusterRepliconName (hits : List MHit) : Except PyErr String :=
  match hits with
  | [] => .error .indexError
  | h0 :: _ => .ok h0.repliconName

/-- `System.__init__` (`macsypy/system.py`): the replicon name is read from
the first cluster, `clusters[0].replicon_name`. -/
def systemRepliconName (clusters : List (List MHit)) : Except PyErr String :=
  match clusters with
  | [] => .error .indexError
  | c0 :: _ => clusterRepliconName c0

/-- A model gene as searched by `Model.get_gene` (`macsypy/model.py`): a
name, the `loner` flag read by the clusterizer, and the lists of homologs
and analogs (the `Gene` class lives in the absent `gene.py`; fields are
modelled from the spec's data model). -/
inductive MGene where
  | node (name : String) (loner : Bool) (homologs analogs : List MGene) : MGene

def MGene.name : MGene → String
  | .node n _ _ _ => n

def MGene.loner : MGene → Bool
  | .node _ l _ _ => l

def MGene.homologs : MGene → List MGene
  | .node _ _ h _ => h

def MGene.analogs : MGene → List MGene
  | .node _ _ _ a => a

/-- The model as read by the clusterizer: `inter_gene_max_space`,
`min_genes_required` (`macsypy/model.py` property: the supplied value or
else the number of mandatory genes), and the gene lists searched by
`get_gene`. -/
structure CModel where
  interGeneMaxSpace : Int
  minGenesRequiredOpt : Option Int
  mandatoryGenes : List MGene
  accessoryGenes : List MGene
  forbiddenGenes : List MGene

def CModel.minGenesRequired (m : CModel) : Int :=
  match m.minGenesRequiredOpt with
  | none => (m.mandatoryGenes.length : Int)
  | some v => v

/-- The inner search of `Model.get_gene`: for each gene of the list, return
it on a name match, otherwise return the first homolog or analog whose name
matches. -/
def getGeneInList : List MGene → String → Option MGene
  | [], _ => none
  | g :: gs, n =>
    if g.name == n then some g
    else
      match (g.homologs ++ g.analogs).find? (fun ex => ex.name == n) with
      | some ex => some ex
      | none => getGeneInList gs n

/-- `Model.get_gene`: search mandatory, accessory then forbidden genes;
raise `KeyError` when the name resolves to none of them. -/
def CModel.getGene (m : CModel) (n : String) : Except PyErr MGene :=
  match getGeneInList (m.mandatoryGenes ++ m.accessoryGenes ++ m.forbiddenGenes) n with
  | some g => .ok g
  | none => .error .keyError

/-- The sort key of `_clusterize`: `(h.position, -h.score)` ascending, i.e.
position ascending then score descending. -/
def hitLe (a b : MHit) : Prop :=
  a.position < b.position ∨ (a.position = b.position ∧ b.score ≤ a.score)

instance : DecidableRel hitLe := fun a b => by
  unfold hitLe
  infer_instance

instance : IsTotal MHit hitLe where
  total a b := by
    rcases lt_trichotomy a.position b.position with h | h | h
    · exact Or.inl (Or.inl h)
    · rcases le_total b.score a.score with hs | hs
      · exact Or.inl (Or.inr ⟨h, hs⟩)
      · exact Or.inr (Or.inr ⟨h.symm, hs⟩)
    · exact Or.inr (Or.inl h)

instance : IsTrans MHit hitLe where
  trans a b c hab hbc := by
    rcases hab with h | ⟨he, hs⟩ <;> rcases hbc with h' | ⟨he', hs'⟩
    · exact Or.inl (h.trans h')
    · exact Or.inl (he' ▸ h)
    · exact Or.inl (he ▸ h')
    · exact Or.inr ⟨he.trans he', hs'.trans hs⟩

/-- `hits.sort(key=lambda h: (h.position, - h.score))`: a stable sort by the
lexicographic key, modelled by insertion sort (stable, like Python's). -/
def sortHits (hits : List MHit) : List MHit :=
  List.insertionSort hitLe hits

/-- Helper of `dedupByPos`: drop every hit whose position equals the last
emitted one, emit the others.  On every input this keeps exactly the first
hit of each run of equal positions, like `itertools.groupby`. -/
def dedupByPosAux : Int → List MHit → List MHit
  | _, [] => []
  | last, h :: t =>
    if h.position == last then dedupByPosAux last t
    else h :: dedupByPosAux h.position t

/-- The duplicate removal of `_clusterize`:
`[next(group) for pos, group in itertools.groupby(hits, lambda h: h.position)]`,
i.e. keep the first hit of every run of equal positions. -/
def dedupByPos : List MHit → List MHit
  | [] => []
  | h :: t => h :: dedupByPosAux h.position t

/-- The scaffold-closing rule applied when two consecutive hits do not
colocalize (`_clusterize`, the `else` branch of the sweep): close the
scaffold when it holds at least two hits, or when the model requires a
single gene, or when the scaffold's gene is a loner of the model. -/
def closeOnBreak (model : CModel) (clusters : List (List MHit))
    (scaffold : List MHit) : Except PyErr (List (List MHit)) :=
  if 1 < scaffold.length then
    match mkClusterHits scaffold with
    | .ok c => .ok (clusters ++ [c])
    | .error e => .error e
  else if model.minGenesRequired = 1 then
    match mkClusterHits scaffold with
    | .ok c => .ok (clusters ++ [c])
    | .error e => .error e
  else
    match scaffold with
    | [] => .error .indexError
    | s0 :: _ =>
      match model.getGene s0.geneName with
      | .error e => .error e
      | .ok g =>
        if g.loner then
          match mkClusterHits scaffold with
          | .ok c => .ok (clusters ++ [c])
          | .error e => .error e
        else
          .ok clusters

/-- The sweep of `_clusterize` over `hits[1:]`: extend the scaffold while
consecutive hits colocalize, close it on a break, restart the scaffold with
the current hit.  Returns the closed clusters and the final scaffold. -/
def sweepLoop (model : CModel) (rep : RepInfo) :
    List MHit → List MHit → MHit → List (List MHit) →
      Except PyErr (List (List MHit) × List MHit)
  | [], scaffold, _prev, clusters => .ok (clusters, scaffold)
  | m :: rest, scaffold, prev, clusters =>
    if collocates prev m rep then
      sweepLoop model rep rest (scaffold ++ [m]) m clusters
    else
      match closeOnBreak model clusters scaffold with
      | .error e => .error e
      | .ok clusters' => sweepLoop model rep rest [m] m clusters'

/-- Closing of the last scaffold (`_clusterize`, lines after the sweep):
a scaffold of two or more hits closes into a cluster; a singleton scaffold
that colocalizes with the first hit of the first cluster is merged in front
of it (circularity), else it closes alone when its gene-ref is a loner or
when the model requires a single gene. -/
def closeFinal (model : CModel) (rep : RepInfo) (clusters : List (List MHit))
    (scaffold : List MHit) : Except PyErr (List (List MHit)) :=
  match scaffold with
  | _ :: _ :: _ =>
    match mkClusterHits scaffold with
    | .ok c => .ok (clusters ++ [c])
    | .error e => .error e
  | [s0] =>
    match clusters with
    | (f0 :: c0t) :: crest =>
      if collocates s0 f0 rep then
        match mkClusterHits [s0] with
        | .ok c => .ok ((c ++ (f0 :: c0t)) :: crest)
        | .error e => .error e
      else if s0.geneRef.loner then
        match mkClusterHits [s0] with
        | .ok c => .ok (clusters ++ [c])
        | .error e => .error e
      else if model.minGenesRequired = 1 then
        match mkClusterHits [s0] with
        | .ok c => .ok (clusters ++ [c])
        | .error e => .error e
      else
        .ok clusters
    | [] :: _ => .error .indexError
    | [] =>
      if s0.geneRef.loner then
        match mkClusterHits [s0] with
        | .ok c => .ok ([] ++ [c])
        | .error e => .error e
      else if model.minGenesRequired = 1 then
        match mkClusterHits [s0] with
        | .ok c => .ok ([] ++ [c])
        | .error e => .error e
      else
        .ok []
  | [] => .ok clusters

/-- The final circularity stitch of `_clusterize`: when at least two
clusters remain and the last hit of the last cluster colocalizes with the
first hit of the first one, merge the last cluster in front of the first
and drop it. -/
def stitch (rep : RepInfo) (clusters : List (List MHit)) :
    Except PyErr (List (List MHit)) :=
  if 1 < clusters.length then
    match clusters.getLast?, clusters.head? with
    | some lastC, some firstC =>
      match lastC.getLast?, firstC.head? with
      | some l1, some f0 =>
        if collocates l1 f0 rep then
          match clusters.dropLast with
          | c0 :: crest => .ok ((lastC ++ c0) :: crest)
          | [] => .ok []
        else
          .ok clusters
      | _, _ => .error .indexError
    | _, _ => .ok clusters
  else
    .ok clusters

/-- `_clusterize(hits, model, hit_weights, rep_info)`: sort, deduplicate by
position, sweep, close the final scaffold, stitch for circularity.  When the
hit list is empty the Python function falls through and returns `None`,
modelled by `none`. -/
def clusterize (hits : List MHit) (model : CModel) (rep : RepInfo) :
    Except PyErr (Option (List (List MHit))) :=
  match dedupByPos (sortHits hits) with
  | [] => .ok none
  | h0 :: rest =>
    match sweepLoop model rep rest [h0] h0 [] with
    | .error e => .error e
    | .ok (clusters, scaffold) =>
      match closeFinal model rep clusters scaffold with
      | .error e => .error e
      | .ok clusters' =>
        match stitch rep clusters' with
        | .error e => .error e
        | .ok clusters'' => .ok (some clusters'')

/-- Strict position increase between consecutive hits. -/
def posLt (a b : MHit) : Prop := a.position < b.position

end Coloc

namespace ScoreC

/-!  Embedding of `Cluster.score` (`macsypy/cluster.py`) and `System.score`
/ `Cluster.fulfilled_function` (`macsypy/system.py`, `macsypy/cluster.py`).
Scores are rationals standing for Python floats. -/

/-- The per-run hit weights (`macsypy.hit.HitWeight`, absent `hit.py`;
entries modelled from the spec: `{mandatory, accessory, neutral,
exchangeable, itself, loner_multi_system}`). -/
structure HitWeight where
  mandatory : Rat
  accessory : Rat
  neutral : Rat
  exchangeable : Rat
  itself : Rat
  lonerMultiSystem : Rat
  deriving DecidableEq

/-- The view of a scored hit taken by `Cluster.score`: its status in the
model, whether its gene-ref is an exchangeable stand-in, the loner and
multi-system flags, and the functional key
`gene_ref.alternate_of().name` (hit attributes live in the absent
`hit.py`; fields modelled from the spec's data model). -/
structure SHit where
  id : Nat
  geneName : String
  position : Int
  status : GeneStatus
  isExchangeable : Bool
  loner : Bool
  multiSystem : Bool
  altOfName : String
  deriving DecidableEq

/-- The per-hit score of `Cluster.score`: the status weight (failing with
`MacsypyError` on a status that is neither mandatory, accessory nor
neutral), times the exchangeable-or-itself weight, times the
loner-multi-system weight when both flags are set. -/
def hitScore (w : HitWeight) (h : SHit) : Except PyErr Rat :=
  match h.status with
  | .mandatory => .ok (weighHit w h w.mandatory)
  | .accessory => .ok (weighHit w h w.accessory)
  | .neutral => .ok (weighHit w h w.neutral)
  | .forbidden =>
    .error (.macsypyError
      ("a Cluster contains hit " ++ h.geneName ++ " which is neither mandatory nor accessory"))
where
  /-- the two multiplicative adjustments applied after the status weight -/
  weighHit (w : HitWeight) (h : SHit) (base : Rat) : Rat :=
    let b2 := if h.isExchangeable then base * w.exchangeable else base * w.itself
    if h.loner ∧ h.multiSystem then b2 * w.lonerMultiSystem else b2

/-- Replace the value stored under a key of the association list that
models the Python dict `seen_hits` (keeps key order, like a dict). -/
def updValue : List (String × Rat) → String → Rat → List (String × Rat)
  | [], _, _ => []
  | (k', v') :: rest, k, v =>
    if k' == k then (k', v) :: rest else (k', v') :: updValue rest k v

/-- The `seen_hits` update of `Cluster.score`: an existing key keeps the
larger score, a new key is inserted (dict insertion order). -/
def seenUpdate (seen : List (String × Rat)) (k : String) (v : Rat) :
    List (String × Rat) :=
  match seen.lookup k with
  | some old => if old < v then updValue seen k v else seen
  | none => seen ++ [(k, v)]

/-- The hit loop of `Cluster.score`, threading the `seen_hits` dict. -/
def scoreLoop (w : HitWeight) : List SHit → List (String × Rat) →
    Except PyErr (List (String × Rat))
  | [], seen => .ok seen
  | h :: t, seen =>
    match hitScore w h with
    | .error e => .error e
    | .ok s => scoreLoop w t (seenUpdate seen h.altOfName s)

/-- `sum(seen_hits.values())`. -/
def sumValues (seen : List (String × Rat)) : Rat := (seen.map (·.2)).sum

/-- `Cluster.score`: run the loop over the hits starting from an empty
dict and sum the retained per-function maxima. -/
def clusterScore (w : HitWeight) (hits : List SHit) : Except PyErr Rat :=
  match scoreLoop w hits [] with
  | .error e => .error e
  | .ok seen => .ok (sumValues seen)

/-- The statuses `Cluster.score` accepts. -/
def statusCounted (h : SHit) : Prop :=
  h.status = .mandatory ∨ h.status = .accessory ∨ h.status = .neutral

instance (h : SHit) : Decidable (statusCounted h) := by
  unfold statusCounted
  infer_instance

/-- The claim's per-hit score as a total value (0 on the error status,
which the claim never reaches). -/
def hitScoreVal (w : HitWeight) (h : SHit) : Rat :=
  let base :=
    match h.status with
    | GeneStatus.mandatory => w.mandatory
    | GeneStatus.accessory => w.accessory
    | GeneStatus.neutral => w.neutral
    | GeneStatus.forbidden => 0
  let b2 := if h.isExchangeable then base * w.exchangeable else base * w.itself
  if h.loner ∧ h.multiSystem then b2 * w.lonerMultiSystem else b2

/-- First-occurrence key collection, the insertion order of a Python
dict. -/
def keysInAux : List String → List String → List String
  | acc, [] => acc
  | acc, k :: t => if k ∈ acc then keysInAux acc t else keysInAux (acc ++ [k]) t

def keysIn (l : List String) : List String := keysInAux [] l

/-- Maximum of a list of rationals, `none` on the empty list. -/
def maxFold : List Rat → Option Rat
  | [] => none
  | v :: t => some (t.foldl max v)

/-- The claim's per-key quantity: the maximum of the per-hit scores over
the hits carrying functional key `k`. -/
def maxScoreOfKey (w : HitWeight) (hits : List SHit) (k : String) : Option Rat :=
  maxFold ((hits.filter (fun h => h.altOfName == k)).map (hitScoreVal w))

/-- `mergeMax a b` merges an optional running maximum with another. -/
def mergeMax : Option Rat → Option Rat → Option Rat
  | none, b => b
  | some a, none => some a
  | some a, some b => some (max a b)

/-- The part of the model read by `System.score`: the names of the
mandatory and accessory genes. -/
structure SysModel where
  mandatoryGenes : List String
  accessoryGenes : List String
  deriving DecidableEq

/-- `Cluster.fulfilled_function` applied to a gene name: whether some hit
of the cluster has that functional key (`alternate_of().name`). -/
def fulfilledFunction (hits : List SHit) (g : String) : Bool :=
  hits.any (fun h => h.altOfName == g)

/-- `[clst.score for clst in self.clusters]`, propagating the first
scoring error. -/
def clusterScoresAcc (w : HitWeight) : List (List SHit) → Except PyErr (List Rat)
  | [] => .ok []
  | c :: t =>
    match clusterScore w c with
    | .error e => .error e
    | .ok s =>
      match clusterScoresAcc w t with
      | .error e => .error e
      | .ok ss => .ok (s :: ss)

/-- The penalty loop of `System.score`: for every mandatory or accessory
gene fulfilled by `n > 0` clusters, subtract `(n - 1) * 1.5`. -/
def penaltyFold (m : SysModel) (clusters : List (List SHit)) (base : Rat) : Rat :=
  (m.mandatoryGenes ++ m.accessoryGenes).foldl
    (fun acc g =>
      let n := clusters.countP (fun c => fulfilledFunction c g)
      if 0 < n then acc - ((n : Rat) - 1) * (3 / 2) else acc)
    base

/-- `System.score`: sum of the cluster scores minus the cross-cluster
redundancy penalties. -/
def systemScore (w : HitWeight) (m : SysModel) (clusters : List (List SHit)) :
    Except PyErr Rat :=
  match clusterScoresAcc w clusters with
  | .error e => .error e
  | .ok ss => .ok (penaltyFold m clusters ss.sum)

end ScoreC

namespace Sel

/-!  Embedding of `macsypy/score.py`: `ComposedScore` and
`BestSystemSelector`. -/

/-- A `ValidHit` as seen by `ComposedScore._overlap`: its object identity
(the key of the `used_in_systems` dict) and the identity of the wrapped
`CoreHit` (the key of the `HitSystemTracker`). -/
structure VHit where
  vid : Nat
  hit : Nat
  deriving DecidableEq

/-- What the tracker stores per system: its id and its model's fully
qualified name. -/
structure SysRef where
  id : String
  modelFqn : String
  deriving DecidableEq

/-- A `System` as consumed by the selector. -/
structure Sys6 where
  id : String
  modelFqn : String
  score : Rat
  hits : List VHit
  deriving DecidableEq

/-- `HitSystemTracker` lookup `self._hit_tracker[vh.hit]`: `KeyError` when
the hit was never recorded. -/
def trackerGet (tr : List (Nat × List SysRef)) (h : Nat) : Except PyErr (List SysRef) :=
  match tr.lookup h with
  | some l => .ok l
  | none => .error .keyError

/-- Plain optional tracker lookup, used by the spec-side definition. -/
def trackerLookup (tr : List (Nat × List SysRef)) (h : Nat) : List SysRef :=
  (tr.lookup h).getD []

/-- Insert-or-overwrite into the dict `used_in_systems` (keyed by the
`ValidHit` object identity, insertion order preserved). -/
def dictSetNat : List (Nat × List String) → Nat → List String →
    List (Nat × List String)
  | [], k, v => [(k, v)]
  | (k', v') :: t, k, v =>
    if k' == k then (k', v) :: t else (k', v') :: dictSetNat t k v

/-- The loop of `ComposedScore._overlap`: for every hit of the system,
record the ids of the OTHER-model systems that also contain it. -/
def overlapLoop (sys : Sys6) (tr : List (Nat × List SysRef)) :
    List VHit → List (Nat × List String) → Except PyErr (List (Nat × List String))
  | [], acc => .ok acc
  | vh :: rest, acc =>
    match trackerGet tr vh.hit with
    | .error e => .error e
    | .ok srefs =>
      let ids := (srefs.filter (fun s => s.modelFqn ≠ sys.modelFqn)).map SysRef.id
      overlapLoop sys tr rest (dictSetNat acc vh.vid ids)

structure ComposedScore where
  system : Sys6
  overlappingGenes : Nat
  overlappingLength : Nat
  deriving DecidableEq

/-- `ComposedScore.__init__` / `_overlap`: note that `overlapping_genes`
is `len(used_in_systems)` — the number of distinct hits of the system,
with no filtering on the recorded other-model lists. -/
def composedScore (sys : Sys6) (tr : List (Nat × List SysRef)) :
    Except PyErr ComposedScore :=
  match overlapLoop sys tr sys.hits [] with
  | .error e => .error e
  | .ok used =>
    .ok { system := sys,
          overlappingGenes := used.length,
          overlappingLength := (used.map (fun p => p.2.length)).sum }

def composedScores (tr : List (Nat × List SysRef)) :
    List Sys6 → Except PyErr (List ComposedScore)
  | [] => .ok []
  | s :: t =>
    match composedScore s tr with
    | .error e => .error e
    | .ok cs =>
      match composedScores tr t with
      | .error e => .error e
      | .ok css => .ok (cs :: css)

/-- `sorted(self.systems, key=lambda s: - s.score)`. -/
def sysLe (a b : Sys6) : Prop := b.score ≤ a.score

instance : DecidableRel sysLe := fun a b => by
  unfold sysLe
  infer_instance

/-- ascending sort key `cs.overlapping_genes`. -/
def genesLe (a b : ComposedScore) : Prop := a.overlappingGenes ≤ b.overlappingGenes

instance : DecidableRel genesLe := fun a b => by
  unfold genesLe
  infer_instance

/-- ascending sort key `cs.overlapping_length`. -/
def lengthLe (a b : ComposedScore) : Prop := a.overlappingLength ≤ b.overlappingLength

instance : DecidableRel lengthLe := fun a b => by
  unfold lengthLe
  infer_instance

/-- `BestSystemSelector.__init__` followed by `best_system()`: reject
systems of several models, take the top-score group of the
score-descending order, and when tied take the group minimizing
`overlapping_genes`, then the group minimizing `overlapping_length`
(`itertools.groupby` + `next`: the leading run of the sorted list). -/
def bestSystem (systems : List Sys6) (tr : List (Nat × List SysRef)) :
    Except PyErr (List Sys6) :=
  if (systems.map Sys6.modelFqn).dedup.length ≠ 1 then
    .error (.macsypyError "Cannot build Score with system from different models")
  else
    match List.insertionSort sysLe systems with
    | [] => .error .stopIteration
    | s0 :: stail =>
      let bestSystems := s0 :: stail.takeWhile (fun s => s.score == s0.score)
      if 1 < bestSystems.length then
        match composedScores tr bestSystems with
        | .error e => .error e
        | .ok css =>
          match List.insertionSort genesLe css with
          | [] => .error .stopIteration
          | c0 :: ctail =>
            let bestScore := c0 :: ctail.takeWhile
              (fun c => c.overlappingGenes == c0.overlappingGenes)
            if 1 < bestScore.length then
              match List.insertionSort lengthLe bestScore with
              | [] => .error .stopIteration
              | d0 :: dtail =>
                .ok ((d0 :: dtail.takeWhile
                  (fun c => c.overlappingLength == d0.overlappingLength)).map
                    ComposedScore.system)
            else
              .ok (bestScore.map ComposedScore.system)
      else
        .ok bestSystems

/-- The claim's `overlap_genes`, written from the spec for comparison
with the code: the number of the system's hits that are contained in at
least one system of a DIFFERENT model. -/
def specOverlapGenes (tr : List (Nat × List SysRef)) (sys : Sys6) : Nat :=
  (sys.hits.filter (fun vh =>
    (trackerLookup tr vh.hit).any (fun s => s.modelFqn ≠ sys.modelFqn))).length

end Sel

namespace MultiSys

/-!  Embedding of `set_multi_system_hit` (`macsypy/cluster.py`).  The
source iterates `for func_name in ms_registry.items()` and then evaluates
`ms_registry[func_name]`, indexing the dict with the `(key, value)` tuple
yielded by `.items()` — a lookup that can never succeed.  Dict keys are
modelled by `PyKey` to keep the string keys and the tuple lookup apart. -/

/-- A Python dict key: the registry's keys are plain strings; `.pair`
stands for the `(key, value)` tuple used in the faulty lookup. -/
inductive PyKey where
  | str (s : String)
  | pair (s : String)
  deriving DecidableEq

/-- A hit as read by the promotion pass: raw score, the functional key
`gene_ref.alternate_of().name`, and whether that canonical gene is tagged
multi-system. -/
structure Hit7 where
  id : Nat
  score : Rat
  altName : String
  altMultiSystem : Bool
  deriving DecidableEq

/-- Append the `(hit, cluster)` pair to the registry entry of a key, or
create the entry (dict insertion order). -/
def regAppend (reg : List (PyKey × List (Hit7 × Nat))) (k : String) (v : Hit7 × Nat) :
    List (PyKey × List (Hit7 × Nat)) :=
  match reg with
  | [] => [(PyKey.str k, [v])]
  | (k', vs) :: t =>
    if k' == PyKey.str k then (k', vs ++ [v]) :: t
    else (k', vs) :: regAppend t k v

/-- First scan of `set_multi_system_hit`: index `(hit, cluster)` pairs of
multi-system functional keys, clusters identified by their position. -/
def buildRegistry (clusters : List (List Hit7)) : List (PyKey × List (Hit7 × Nat)) :=
  clusters.enum.foldl
    (fun reg p =>
      p.2.foldl
        (fun reg h =>
          if h.altMultiSystem then regAppend reg h.altName (h, p.1) else reg)
        reg)
    []

/-- Python dict subscription: `KeyError` when the key is absent. -/
def lookupPy (d : List (PyKey × List (Hit7 × Nat))) (k : PyKey) :
    Except PyErr (List (Hit7 × Nat)) :=
  match d.find? (fun p => p.1 == k) with
  | some p => .ok p.2
  | none => .error .keyError

/-- `for func_name in ms_registry.items(): ms = ms_registry[func_name]`:
each iteration subscripts the dict with the `(key, value)` tuple, which
is never a key of the dict, so the first iteration raises `KeyError`; the
rest of the loop body is unreachable. -/
def itemsLoop (reg : List (PyKey × List (Hit7 × Nat))) :
    List (PyKey × List (Hit7 × Nat)) → Except PyErr Unit
  | [] => .ok ()
  | (fn, _v) :: rest =>
    match lookupPy reg (PyKey.pair (match fn with | .str s => s | .pair s => s)) with
    | .error e => .error e
    | .ok _ms => itemsLoop reg rest

/-- `set_multi_system_hit(clusters)`: with no multi-system hit the
registry is empty, the loop body never runs and the clusters come back
untouched with an empty mapping; otherwise the first loop iteration
raises `KeyError`. -/
def setMultiSystemHit (clusters : List (List Hit7)) :
    Except PyErr (List (List Hit7) × List (PyKey × List (Hit7 × Nat))) :=
  if clusters.isEmpty then .ok (clusters, [])
  else
    match itemsLoop (buildRegistry clusters) (buildRegistry clusters) with
    | .error e => .error e
    | .ok _ => .ok (clusters, buildRegistry clusters)

end MultiSys

namespace Loners

/-!  Embedding of `_get_true_loners` (`macsypy/cluster.py`). -/

/-- A hit as read by the true-loner extraction: raw score, the `loner`
flag of its gene-ref, its own `multi_system` flag, and the functional key
`gene_ref.alternate_of().name`. -/
structure LHit where
  id : Nat
  score : Rat
  loner : Bool
  multiSystem : Bool
  altName : String
  deriving DecidableEq

/-- `Cluster.loner` property: exactly one hit whose gene-ref is a loner. -/
def clstrLoner : List LHit → Bool
  | [h] => h.loner
  | _ => false

/-- Append a pooled loner to its per-function pool (dict insertion
order). -/
def poolAdd : List (String × List LHit) → String → LHit →
    List (String × List LHit)
  | [], k, h => [(k, [h])]
  | (k', hs) :: t, k, h =>
    if k' == k then (k', hs ++ [h]) :: t else (k', hs) :: poolAdd t k h

/-- First loop of `_get_true_loners`: multi-hit clusters and non-loner
singletons stay `true_clusters` in order; loner singletons go to the
per-function pools. -/
def phase1 : List (List LHit) → List (String × List LHit) → List (List LHit) →
    List (String × List LHit) × List (List LHit)
  | [], pools, tcs => (pools, tcs)
  | clstr :: rest, pools, tcs =>
    if 1 < clstr.length then phase1 rest pools (tcs ++ [clstr])
    else if clstrLoner clstr then
      match clstr with
      | l :: _ => phase1 rest (poolAdd pools l.altName l) tcs
      | [] => phase1 rest pools tcs
    else phase1 rest pools (tcs ++ [clstr])

/-- The promoted forms built by the conversion loop. -/
inductive PLHit where
  | loner (h : LHit) (counterpart : List LHit)
  | lonerMultiSystem (h : LHit)
  deriving DecidableEq

def pScore : PLHit → Rat
  | .loner h _ => h.score
  | .lonerMultiSystem h => h.score

/-- Modelled from the spec: `get_best_hit_4_func` (absent `hit.py`) keeps
the hit with the highest raw score. -/
def bestByScore : List PLHit → Except PyErr PLHit
  | [] => .error .indexError
  | h :: t => .ok (t.foldl (fun b x => if pScore b < pScore x then x else b) h)

/-- The `for i in range(len(loners))` loop of `_get_true_loners`,
iterating over the index list.  It tests `loners[0].multi_system` (the
first pooled hit, not the i-th) and, in that branch, reads the local
variable `hit`, which has a value only if a previous iteration of the
non-multi-system branch assigned it — otherwise Python raises
`UnboundLocalError`.  `hitVar` models that local. -/
def convertLoop (loners : List LHit) : List Nat → Option LHit → List PLHit →
    Except PyErr (List PLHit × Option LHit)
  | [], hitVar, acc => .ok (acc, hitVar)
  | i :: is, hitVar, acc =>
    if (loners.head?.map LHit.multiSystem).getD false then
      match hitVar with
      | none => .error .unboundLocalError
      | some hv => convertLoop loners is hitVar (acc ++ [.lonerMultiSystem hv])
    else
      match loners[i]? with
      | some hit =>
        convertLoop loners is (some hit) (acc ++ [.loner hit (loners.eraseIdx i)])
      | none => .error .indexError

/-- Second loop of `_get_true_loners`: convert each pool, keep the best
per function (the local `hit` survives across pools, as in Python). -/
def phase2 : List (String × List LHit) → Option LHit → List (String × PLHit) →
    Except PyErr (List (String × PLHit))
  | [], _, acc => .ok acc
  | (fn, loners) :: rest, hitVar, acc =>
    match convertLoop loners (List.range loners.length) hitVar [] with
    | .error e => .error e
    | .ok (plist, hitVar') =>
      match bestByScore plist with
      | .error e => .error e
      | .ok best => phase2 rest hitVar' (acc ++ [(fn, best)])

/-- `_get_true_loners(clusters, model, hit_weights)`: returns the
function-to-best-loner mapping (each value standing for a single-hit
cluster) and the remaining clusters. -/
def getTrueLoners (clusters : List (List LHit)) :
    Except PyErr (List (String × PLHit) × List (List LHit)) :=
  match phase1 clusters [] [] with
  | (pools, tcs) =>
    match phase2 pools none [] with
    | .error e => .error e
    | .ok tl => .ok (tl, tcs)

end Loners

namespace SysM

/-!  Embedding of `match` and `System.__init__` (`macsypy/system.py`).
The `Gene` class (absent `gene.py`) is modelled from the spec: a name,
the `exchangeable` flag, and the homolog/analog lists; the model's
neutral gene set is likewise modelled from the spec (the `system.py`
under verification reads `model.neutral_genes`, a field the older
`model.py` in the tree predates). -/

/-- A model gene with its exchangeable alternates. -/
inductive SGene where
  | node (name : String) (exchangeable : Bool) (homologs analogs : List SGene) : SGene

def SGene.name : SGene → String
  | .node n _ _ _ => n

def SGene.exchangeable : SGene → Bool
  | .node _ e _ _ => e

def SGene.homologs : SGene → List SGene
  | .node _ _ h _ => h

def SGene.analogs : SGene → List SGene
  | .node _ _ _ a => a

/-- The model as read by `match`: the four gene sets and the two quorum
parameters with their `model.py` property defaults (the supplied value,
else the number of mandatory genes). -/
structure Model1 where
  mandatoryGenes : List SGene
  accessoryGenes : List SGene
  neutralGenes : List SGene
  forbiddenGenes : List SGene
  minMandatoryGenesRequiredOpt : Option Nat
  minGenesRequiredOpt : Option Nat

def Model1.minMandatoryGenesRequired (m : Model1) : Nat :=
  m.minMandatoryGenesRequiredOpt.getD m.mandatoryGenes.length

def Model1.minGenesRequired (m : Model1) : Nat :=
  m.minGenesRequiredOpt.getD m.mandatoryGenes.length

/-- A `CoreHit` as read by `match`: its gene, replicon and position. -/
structure CHit where
  id : Nat
  gene : SGene
  repliconName : String
  position : Int

/-- `ValidHit(hit, gene_ref, status)`. -/
structure VH where
  hit : CHit
  geneRef : SGene
  status : GeneStatus

/-- Insert-or-overwrite into a Python dict modelled as an association
list (insertion order preserved). -/
def pySet {α : Type} : List (String × α) → String → α → List (String × α)
  | [], k, v => [(k, v)]
  | (k', v') :: t, k, v =>
    if k' == k then (k', v) :: t else (k', v') :: pySet t k v

/-- `{g.name: 0 for g in genes}`. -/
def dictFromGenes (gs : List SGene) : List (String × Nat) :=
  gs.foldl (fun d g => pySet d g.name 0) []

/-- `counter[name] += 1` (the chain only increments existing keys). -/
def dictIncr : List (String × Nat) → String → List (String × Nat)
  | [], _ => []
  | (k', v) :: t, k =>
    if k' == k then (k', v + 1) :: t else (k', v) :: dictIncr t k

/-- `gene_name in counter`. -/
def hasKey {α : Type} (d : List (String × α)) (k : String) : Bool :=
  d.any (fun p => p.1 == k)

/-- `create_exchangeable_map(genes)`: for every exchangeable gene, map
each of its homologs' and analogs' names back to the gene. -/
def createExchangeableMap (gs : List SGene) : List (String × SGene) :=
  gs.foldl
    (fun mp g =>
      if g.exchangeable then
        (g.homologs ++ g.analogs).foldl (fun mp2 ex => pySet mp2 ex.name g) mp
      else mp)
    []

/-- Membership-and-get on an exchangeable map. -/
def lookupG (d : List (String × SGene)) (k : String) : Option SGene :=
  (d.find? (fun p => p.1 == k)).map Prod.snd

/-- The outcome of one iteration of the hit chain of `match`. -/
structure StepOut where
  mc : List (String × Nat)
  ac : List (String × Nat)
  nc : List (String × Nat)
  fc : List (String × Nat)
  valid? : Option VH
  forbidden? : Option CHit

/-- The `elif` chain of `match` for one hit: mandatory counter keys, the
exchangeable-mandatory map, then accessory, neutral and forbidden
likewise; unknown gene names fall through.  Counters are incremented for
the resolved (canonical) gene name; forbidden hits are diverted. -/
def processHit (em ea en ef : List (String × SGene))
    (mc ac nc fc : List (String × Nat)) (h : CHit) : StepOut :=
  if hasKey mc h.gene.name then
    ⟨dictIncr mc h.gene.name, ac, nc, fc, some ⟨h, h.gene, .mandatory⟩, none⟩
  else
    match lookupG em h.gene.name with
    | some gref => ⟨dictIncr mc gref.name, ac, nc, fc, some ⟨h, gref, .mandatory⟩, none⟩
    | none =>
      if hasKey ac h.gene.name then
        ⟨mc, dictIncr ac h.gene.name, nc, fc, some ⟨h, h.gene, .accessory⟩, none⟩
      else
        match lookupG ea h.gene.name with
        | some gref => ⟨mc, dictIncr ac gref.name, nc, fc, some ⟨h, gref, .accessory⟩, none⟩
        | none =>
          if hasKey nc h.gene.name then
            ⟨mc, ac, dictIncr nc h.gene.name, fc, some ⟨h, h.gene, .neutral⟩, none⟩
          else
            match lookupG en h.gene.name with
            | some gref => ⟨mc, ac, dictIncr nc gref.name, fc, some ⟨h, gref, .neutral⟩, none⟩
            | none =>
              if hasKey fc h.gene.name then
                ⟨mc, ac, nc, dictIncr fc h.gene.name, none, some h⟩
              else
                match lookupG ef h.gene.name with
                | some gref => ⟨mc, ac, nc, dictIncr fc gref.name, none, some h⟩
                | none => ⟨mc, ac, nc, fc, none, none⟩

/-- The matcher's running state: the four counters, the global
`forbidden_hits` list and the closed `valid_clusters`. -/
structure MState where
  mc : List (String × Nat)
  ac : List (String × Nat)
  nc : List (String × Nat)
  fc : List (String × Nat)
  forbiddenHits : List CHit
  validClusters : List (List VH)

/-- The inner `for hit in cluster.hits` loop, accumulating the cluster's
`valid_hits`. -/
def clusterLoop (em ea en ef : List (String × SGene)) :
    List CHit → MState → List VH → MState × List VH
  | [], st, vhs => (st, vhs)
  | h :: t, st, vhs =>
    let out := processHit em ea en ef st.mc st.ac st.nc st.fc h
    let st' : MState :=
      { st with
        mc := out.mc, ac := out.ac, nc := out.nc, fc := out.fc,
        forbiddenHits :=
          match out.forbidden? with
          | some f => st.forbiddenHits ++ [f]
          | none => st.forbiddenHits }
    clusterLoop em ea en ef t st'
      (match out.valid? with
       | some v => vhs ++ [v]
       | none => vhs)

/-- The outer `for cluster in clusters` loop: a cluster with valid hits
closes into a valid-hits cluster (`Cluster(valid_hits, model)`, plain
data per the spec's matcher section). -/
def clustersLoop (em ea en ef : List (String × SGene)) :
    List (List CHit) → MState → MState
  | [], st => st
  | c :: rest, st =>
    match clusterLoop em ea en ef c st [] with
    | (st', vhs) =>
      clustersLoop em ea en ef rest
        (if vhs.isEmpty then st'
         else { st' with validClusters := st'.validClusters ++ [vhs] })

/-- The state reached after counting every hit of every cluster. -/
def matchState (clusters : List (List CHit)) (m : Model1) : MState :=
  clustersLoop
    (createExchangeableMap m.mandatoryGenes)
    (createExchangeableMap m.accessoryGenes)
    (createExchangeableMap m.neutralGenes)
    (createExchangeableMap m.forbiddenGenes)
    clusters
    ⟨dictFromGenes m.mandatoryGenes, dictFromGenes m.accessoryGenes,
     dictFromGenes m.neutralGenes, dictFromGenes m.forbiddenGenes, [], []⟩

/-- `[g for g, occ in counter.items() if occ > 0]`. -/
def occKeys (d : List (String × Nat)) : List String :=
  (d.filter (fun p => 0 < p.2)).map Prod.fst

/-- `len(mandatory_genes)` of the decision. -/
def mandatoryPresent (clusters : List (List CHit)) (m : Model1) : Nat :=
  (occKeys (matchState clusters m).mc).length

def accessoryPresent (clusters : List (List CHit)) (m : Model1) : Nat :=
  (occKeys (matchState clusters m).ac).length

def forbiddenPresent (clusters : List (List CHit)) (m : Model1) : Nat :=
  (occKeys (matchState clusters m).fc).length

def forbiddenHitsOf (clusters : List (List CHit)) (m : Model1) : List CHit :=
  (matchState clusters m).forbiddenHits

def validClustersOf (clusters : List (List CHit)) (m : Model1) : List (List VH) :=
  (matchState clusters m).validClusters

/-- The forbidden-rule message of `match`. -/
def forbiddenMsg (fh : List CHit) : String :=
  "There is " ++ toString fh.length ++ " forbidden genes occurrence(s): " ++
    String.intercalate ", " (fh.map (fun h => h.gene.name))

/-- The mandatory-quorum message of `match`. -/
def mandatoryMsg (req got : Nat) : String :=
  "The quorum of mandatory genes required (" ++ toString req ++ ") is not reached: " ++
    toString got

/-- The total-quorum message of `match`. -/
def genesMsg (req got : Nat) : String :=
  "The quorum of genes required (" ++ toString req ++ ") is not reached: " ++
    toString got

/-- A successful match: `System.__init__` reads the replicon name from
the first cluster's first hit. -/
structure System1 where
  repliconName : String
  clusters : List (List VH)

/-- A failed match: `RejectedClusters(model, clusters, reason)` (the
class itself lives outside the tree; fields per the spec's data
model). -/
structure Rejected1 where
  clusters : List (List CHit)
  reason : String

inductive MatchResult where
  | system (s : System1)
  | rejected (r : Rejected1)

/-- `match(clusters, model)`: count, decide on the three rules, and
build a `System` (an `IndexError` on `clusters[0]` when no valid cluster
exists) or a `RejectedClusters` with the newline-joined reasons. -/
def matchClusters (clusters : List (List CHit)) (m : Model1) :
    Except PyErr MatchResult :=
  let st := matchState clusters m
  let mandatoryGenes := occKeys st.mc
  let accessoryGenes := occKeys st.ac
  let forbiddenGenes := occKeys st.fc
  let failForbidden := ¬ forbiddenGenes.isEmpty
  let failMandatory := mandatoryGenes.length < m.minMandatoryGenesRequired
  let failGenes := accessoryGenes.length + mandatoryGenes.length < m.minGenesRequired
  let reasons :=
    (if failForbidden then [forbiddenMsg st.forbiddenHits] else []) ++
    (if failMandatory then [mandatoryMsg m.minMandatoryGenesRequired mandatoryGenes.length] else []) ++
    (if failGenes then
      [genesMsg m.minGenesRequired (accessoryGenes.length + mandatoryGenes.length)] else [])
  if ¬ failForbidden ∧ ¬ failMandatory ∧ ¬ failGenes then
    match st.validClusters with
    | (vh0 :: _) :: _ => .ok (.system ⟨vh0.hit.repliconName, st.validClusters⟩)
    | [] :: _ => .error .indexError
    | [] => .error .indexError
  else
    .ok (.rejected ⟨clusters, String.intercalate "\n" reasons⟩)

/-- The pure per-hit resolution against the initial maps (the counter
key sets never change during the loop, so this is the branch every
iteration takes). -/
def resolveValid (m : Model1) (h : CHit) : Option VH :=
  (processHit
    (createExchangeableMap m.mandatoryGenes)
    (createExchangeableMap m.accessoryGenes)
    (createExchangeableMap m.neutralGenes)
    (createExchangeableMap m.forbiddenGenes)
    (dictFromGenes m.mandatoryGenes) (dictFromGenes m.accessoryGenes)
    (dictFromGenes m.neutralGenes) (dictFromGenes m.forbiddenGenes) h).valid?

/-- Two counters with the same key set. -/
def keysEq (d d' : List (String × Nat)) : Prop :=
  ∀ k, hasKey d k = hasKey d' k

end SysM

end Mcs

namespace Mcs.Coloc

theorem collocates_eq (h1 h2 : MHit) (rep : RepInfo) :
    collocates h1 h2 rep =
      (if 0 ≤ h2.position - h1.position - 1 ∧
           h2.position - h1.position - 1 ≤ effectiveD h1 h2 then
        true
      else if h2.position - h1.position - 1 ≤ 0 ∧ rep.topology = Topology.circular then
        decide (rep.max - h1.position + h2.position - rep.min ≤ effectiveD h1 h2)
      else
        false) := rfl

/-- On a linear replicon two hits in the wrong order never colocalize:
the inter-gene count is negative and the circular re-test is disabled. -/
theorem collocates_linear_false (h1 h2 : MHit) (rep : RepInfo)
    (hlin : rep.topology = Topology.linear) (hord : h2.position ≤ h1.position) :
    collocates h1 h2 rep = false := by
  rw [collocates_eq]
  have h1' : ¬ (0 ≤ h2.position - h1.position - 1 ∧
      h2.position - h1.position - 1 ≤ effectiveD h1 h2) := by
    rintro ⟨habs, -⟩
    omega
  have h2' : ¬ (h2.position - h1.position - 1 ≤ 0 ∧ rep.topology = Topology.circular) := by
    rintro ⟨-, habs⟩
    rw [hlin] at habs
    exact Topology.noConfusion habs
  rw [if_neg h1', if_neg h2']

theorem mkClusterHits_cons (h0 : MHit) (t : List MHit) :
    mkClusterHits (h0 :: t) =
      if ((h0 :: t).all fun h => h.repliconName == h0.repliconName) = true then
        .ok (h0 :: t)
      else
        .error (.macsypyError "Cannot build a cluster from hits coming from different replicons") := by
  by_cases hb : ((h0 :: t).all fun h => h.repliconName == h0.repliconName) = true
  · simp [mkClusterHits, checkRepliconConsistency, hb]
  · simp [mkClusterHits, checkRepliconConsistency, hb]

theorem allRepliconEq_iff (h0 : MHit) (t : List MHit) :
    ((h0 :: t).all fun h => h.repliconName == h0.repliconName) = true ↔
      ∀ h ∈ h0 :: t, h.repliconName = h0.repliconName := by
  rw [List.all_eq_true]
  constructor
  · intro hall h hmem
    exact beq_iff_eq.mp (hall h hmem)
  · intro hall h hmem
    exact beq_iff_eq.mpr (hall h hmem)

theorem mem_sortHits {x : MHit} {l : List MHit} : x ∈ sortHits l ↔ x ∈ l := by
  unfold sortHits
  exact List.mem_insertionSort _

theorem hitLe_pos_le {a b : MHit} (h : hitLe a b) : a.position ≤ b.position := by
  rcases h with h | ⟨h, -⟩
  · exact le_of_lt h
  · exact le_of_eq h

theorem dedupByPosAux_subset : ∀ (l : List MHit) (last : Int),
    dedupByPosAux last l ⊆ l := by
  intro l
  induction l with
  | nil => intro last; simp [dedupByPosAux]
  | cons a t ih =>
    intro last
    rw [dedupByPosAux]
    split
    · exact (ih last).trans (List.subset_cons_self a t)
    · intro x hx
      rcases List.mem_cons.mp hx with rfl | hx
      · exact List.mem_cons_self _ _
      · exact List.mem_cons_of_mem _ (ih a.position hx)

theorem dedupByPos_subset : ∀ l : List MHit, dedupByPos l ⊆ l := by
  intro l
  cases l with
  | nil => simp [dedupByPos]
  | cons a t =>
    rw [dedupByPos]
    intro x hx
    rcases List.mem_cons.mp hx with rfl | hx
    · exact List.mem_cons_self _ _
    · exact List.mem_cons_of_mem _ (dedupByPosAux_subset t a.position hx)

/-- On a sorted suffix whose positions all dominate `last`, the helper
yields strictly increasing positions, all strictly above `last`. -/
theorem dedupByPosAux_pairwise :
    ∀ (l : List MHit) (last : Int), l.Pairwise hitLe →
      (∀ y ∈ l, last ≤ y.position) →
      (dedupByPosAux last l).Pairwise posLt ∧
        ∀ y ∈ dedupByPosAux last l, last < y.position := by
  intro l
  induction l with
  | nil => intro last _ _; simp [dedupByPosAux]
  | cons a t ih =>
    intro last hs hb
    rw [dedupByPosAux]
    have hst : t.Pairwise hitLe := (List.pairwise_cons.mp hs).2
    split <;> rename_i hpa
    · refine ih last hst ?_
      intro y hy
      exact hb y (List.mem_cons_of_mem _ hy)
    · have hbt : ∀ y ∈ t, a.position ≤ y.position := fun y hy =>
        hitLe_pos_le ((List.pairwise_cons.mp hs).1 y hy)
      obtain ⟨hpw, hgt⟩ := ih a.position hst hbt
      have hla : last < a.position := by
        have := hb a (List.mem_cons_self _ _)
        have hne : ¬ a.position = last := fun he => hpa (beq_iff_eq.mpr he)
        omega
      refine ⟨List.pairwise_cons.mpr ⟨fun y hy => hgt y hy, hpw⟩, ?_⟩
      intro y hy
      rcases List.mem_cons.mp hy with rfl | hy
      · exact hla
      · exact hla.trans (hgt y hy)

/-- Deduplication of a sorted hit list yields strictly increasing
positions. -/
theorem dedupByPos_pairwise_posLt :
    ∀ l : List MHit, l.Pairwise hitLe → (dedupByPos l).Pairwise posLt := by
  intro l hs
  cases l with
  | nil => simp [dedupByPos]
  | cons a t =>
    rw [dedupByPos]
    have hst : t.Pairwise hitLe := (List.pairwise_cons.mp hs).2
    have hbt : ∀ y ∈ t, a.position ≤ y.position := fun y hy =>
      hitLe_pos_le ((List.pairwise_cons.mp hs).1 y hy)
    obtain ⟨hpw, hgt⟩ := dedupByPosAux_pairwise t a.position hst hbt
    exact List.pairwise_cons.mpr ⟨fun y hy => hgt y hy, hpw⟩

theorem dedupByPosAux_max_score :
    ∀ (l : List MHit) (last : Int), l.Pairwise hitLe →
      (∀ y ∈ l, last ≤ y.position) →
      ∀ h ∈ dedupByPosAux last l, ∀ h2 ∈ l,
        h2.position = h.position → h2.score ≤ h.score := by
  intro l
  induction l with
  | nil => intro last _ _ h hmem; simp [dedupByPosAux] at hmem
  | cons a t ih =>
    intro last hs hb h hmem h2 hmem2 hpos
    rw [dedupByPosAux] at hmem
    have hst : t.Pairwise hitLe := (List.pairwise_cons.mp hs).2
    have hbt : ∀ y ∈ t, a.position ≤ y.position := fun y hy =>
      hitLe_pos_le ((List.pairwise_cons.mp hs).1 y hy)
    split at hmem <;> rename_i hpa
    · have hgt := (dedupByPosAux_pairwise t last hst
        (fun y hy => hb y (List.mem_cons_of_mem _ hy))).2 h hmem
      rcases List.mem_cons.mp hmem2 with rfl | hmem2
      · have ha : h2.position = last := beq_iff_eq.mp hpa
        omega
      · exact ih last hst (fun y hy => hb y (List.mem_cons_of_mem _ hy)) h hmem h2 hmem2 hpos
    · rcases List.mem_cons.mp hmem with rfl | hmem
      · rcases List.mem_cons.mp hmem2 with rfl | hmem2
        · exact le_refl _
        · have hxy : hitLe h h2 := (List.pairwise_cons.mp hs).1 h2 hmem2
          rcases hxy with hlt | ⟨-, hsc⟩
          · exact absurd hpos (by omega)
          · exact hsc
      · have hgt := (dedupByPosAux_pairwise t a.position hst hbt).2 h hmem
        rcases List.mem_cons.mp hmem2 with rfl | hmem2
        · exact absurd hpos (by omega)
        · exact ih a.position hst hbt h hmem h2 hmem2 hpos

/-- Each hit kept by the deduplication of a sorted list carries the best
score among the hits sharing its position. -/
theorem dedupByPos_max_score :
    ∀ l : List MHit, l.Pairwise hitLe →
      ∀ h ∈ dedupByPos l, ∀ h2 ∈ l, h2.position = h.position → h2.score ≤ h.score := by
  intro l hs h hmem h2 hmem2 hpos
  cases l with
  | nil => simp at hmem2
  | cons a t =>
    rw [dedupByPos] at hmem
    have hst : t.Pairwise hitLe := (List.pairwise_cons.mp hs).2
    have hbt : ∀ y ∈ t, a.position ≤ y.position := fun y hy =>
      hitLe_pos_le ((List.pairwise_cons.mp hs).1 y hy)
    rcases List.mem_cons.mp hmem with rfl | hmem
    · rcases List.mem_cons.mp hmem2 with rfl | hmem2
      · exact le_refl _
      · have hxy : hitLe h h2 := (List.pairwise_cons.mp hs).1 h2 hmem2
        rcases hxy with hlt | ⟨-, hsc⟩
        · exact absurd hpos (by omega)
        · exact hsc
    · have hgt := (dedupByPosAux_pairwise t a.position hst hbt).2 h hmem
      rcases List.mem_cons.mp hmem2 with rfl | hmem2
      · exact absurd hpos (by omega)
      · exact dedupByPosAux_max_score t a.position hst hbt h hmem h2 hmem2 hpos

theorem dedupByPosAux_covers :
    ∀ (l : List MHit) (last : Int), ∀ h2 ∈ l,
      (∃ h ∈ dedupByPosAux last l, h.position = h2.position) ∨ h2.position = last := by
  intro l
  induction l with
  | nil => intro last h2 hmem; simp at hmem
  | cons a t ih =>
    intro last h2 hmem
    rw [dedupByPosAux]
    split <;> rename_i hpa
    · rcases List.mem_cons.mp hmem with rfl | hmem
      · exact Or.inr (beq_iff_eq.mp hpa)
      · exact ih last h2 hmem
    · rcases List.mem_cons.mp hmem with rfl | hmem
      · exact Or.inl ⟨h2, List.mem_cons_self _ _, rfl⟩
      · rcases ih a.position h2 hmem with ⟨h, hh, hp⟩ | hp
        · exact Or.inl ⟨h, List.mem_cons_of_mem _ hh, hp⟩
        · exact Or.inl ⟨a, List.mem_cons_self _ _, hp.symm⟩

/-- Every input position is represented in the deduplicated list. -/
theorem dedupByPos_covers :
    ∀ l : List MHit, ∀ h2 ∈ l, ∃ h ∈ dedupByPos l, h.position = h2.position := by
  intro l h2 hmem
  cases l with
  | nil => simp at hmem
  | cons a t =>
    rw [dedupByPos]
    rcases List.mem_cons.mp hmem with rfl | hmem
    · exact ⟨h2, List.mem_cons_self _ _, rfl⟩
    · rcases dedupByPosAux_covers t a.position h2 hmem with ⟨h, hh, hp⟩ | hp
      · exact ⟨h, List.mem_cons_of_mem _ hh, hp⟩
      · exact ⟨a, List.mem_cons_self _ _, hp.symm⟩

theorem mkClusterHits_ok {l c : List MHit} (h : mkClusterHits l = .ok c) :
    c = l ∧ l ≠ [] := by
  cases l with
  | nil => simp [mkClusterHits, checkRepliconConsistency] at h
  | cons h0 t =>
    rw [mkClusterHits_cons] at h
    split at h
    · injection h with he
      exact ⟨he.symm, by simp⟩
    · exact absurd h (by simp)

theorem closeOnBreak_ok {model : CModel} {clusters : List (List MHit)}
    {scaffold : List MHit} {cs' : List (List MHit)}
    (h : closeOnBreak model clusters scaffold = .ok cs') :
    cs' = clusters ∨ cs' = clusters ++ [scaffold] := by
  unfold closeOnBreak at h
  split at h
  · split at h <;> rename_i heq
    · injection h with he
      obtain ⟨hc, -⟩ := mkClusterHits_ok heq
      exact Or.inr (by rw [← he, hc])
    · exact absurd h (by simp)
  · split at h
    · split at h <;> rename_i heq
      · injection h with he
        obtain ⟨hc, -⟩ := mkClusterHits_ok heq
        exact Or.inr (by rw [← he, hc])
      · exact absurd h (by simp)
    · split at h
      · exact absurd h (by simp)
      · split at h <;> rename_i hg
        · exact absurd h (by simp)
        · split at h
          · split at h <;> rename_i heq
            · injection h with he
              obtain ⟨hc, -⟩ := mkClusterHits_ok heq
              exact Or.inr (by rw [← he, hc])
            · exact absurd h (by simp)
          · injection h with he
            exact Or.inl he.symm

/-- Sweep invariant: from a state whose processed hits (closed clusters
followed by the scaffold) and remaining hits are jointly strictly
increasing in position, the sweep yields clusters and a final scaffold
preserving that property, with no empty cluster. -/
theorem sweepLoop_inv (model : CModel) (rep : RepInfo) :
    ∀ (rem scaffold : List MHit) (prev : MHit) (clusters : List (List MHit))
      (out : List (List MHit) × List MHit),
      (clusters.flatten ++ (scaffold ++ rem)).Pairwise posLt →
      (∀ c ∈ clusters, c ≠ []) →
      scaffold ≠ [] →
      sweepLoop model rep rem scaffold prev clusters = .ok out →
      (out.1.flatten ++ out.2).Pairwise posLt ∧ (∀ c ∈ out.1, c ≠ []) ∧ out.2 ≠ [] := by
  intro rem
  induction rem with
  | nil =>
    intro scaffold prev clusters out hp hne hsne hok
    rw [sweepLoop] at hok
    injection hok with he
    rw [← he]
    rw [List.append_nil] at hp
    exact ⟨hp, hne, hsne⟩
  | cons m rest ih =>
    intro scaffold prev clusters out hp hne hsne hok
    rw [sweepLoop] at hok
    split at hok
    · refine ih (scaffold ++ [m]) m clusters out ?_ hne (by simp) hok
      rw [List.append_cons scaffold m rest] at hp
      exact hp
    · split at hok <;> rename_i heq
      · exact absurd hok (by simp)
      · rcases closeOnBreak_ok heq with hc | hc
        · refine ih [m] m _ out ?_ ?_ (by simp) hok
          · rw [hc]
            have hsub : List.Sublist (clusters.flatten ++ ([m] ++ rest))
                (clusters.flatten ++ (scaffold ++ (m :: rest))) :=
              List.Sublist.append_left
                (List.sublist_append_right scaffold (m :: rest)) _
            exact hp.sublist hsub
          · rw [hc]
            exact hne
        · refine ih [m] m _ out ?_ ?_ (by simp) hok
          · rw [hc, List.flatten_append]
            simp only [List.flatten_cons, List.flatten_nil, List.append_nil]
            rw [List.append_assoc]
            simpa [List.append_assoc] using hp
          · rw [hc]
            intro c hcmem
            rcases List.mem_append.mp hcmem with hcl | hcl
            · exact hne c hcl
            · rw [List.mem_singleton.mp hcl]
              exact hsne

/-- Closing the final scaffold on a linear replicon: the merge-in-front
branch is unreachable, so the output clusters stay jointly increasing and
non-empty. -/
theorem closeFinal_linear {model : CModel} {rep : RepInfo}
    {clusters : List (List MHit)} {scaffold : List MHit} {cs' : List (List MHit)}
    (hlin : rep.topology = Topology.linear)
    (hp : (clusters.flatten ++ scaffold).Pairwise posLt)
    (hne : ∀ c ∈ clusters, c ≠ [])
    (h : closeFinal model rep clusters scaffold = .ok cs') :
    cs'.flatten.Pairwise posLt ∧ (∀ c ∈ cs', c ≠ []) := by
  unfold closeFinal at h
  split at h
  · rename_i a b t2
    split at h <;> rename_i heq
    · injection h with he
      obtain ⟨hc, -⟩ := mkClusterHits_ok heq
      subst hc
      rw [← he, List.flatten_append]
      simp only [List.flatten_cons, List.flatten_nil, List.append_nil]
      refine ⟨hp, ?_⟩
      intro c hcmem
      rcases List.mem_append.mp hcmem with hcl | hcl
      · exact hne c hcl
      · rw [List.mem_singleton.mp hcl]
        simp
    · exact absurd h (by simp)
  · rename_i s0
    split at h
    · rename_i f0 c0t crest
      have hf0 : f0 ∈ ((f0 :: c0t) :: crest).flatten := by
        rw [List.flatten_cons]
        exact List.mem_append_left _ (List.mem_cons_self _ _)
      have hps : f0.position < s0.position := by
        have := (List.pairwise_append.mp hp).2.2 f0 hf0 s0 (List.mem_singleton_self _)
        exact this
      have hcoll : collocates s0 f0 rep = false :=
        collocates_linear_false s0 f0 rep hlin (le_of_lt hps)
      rw [hcoll] at h
      simp only [Bool.false_eq_true, if_false] at h
      split at h
      · split at h <;> rename_i heq
        · injection h with he
          obtain ⟨hc, -⟩ := mkClusterHits_ok heq
          subst hc
          rw [← he, List.flatten_append]
          simp only [List.flatten_cons, List.flatten_nil, List.append_nil]
          refine ⟨hp, ?_⟩
          intro c hcmem
          rcases List.mem_append.mp hcmem with hcl | hcl
          · exact hne c hcl
          · rw [List.mem_singleton.mp hcl]
            simp
        · exact absurd h (by simp)
      · split at h
        · split at h <;> rename_i heq
          · injection h with he
            obtain ⟨hc, -⟩ := mkClusterHits_ok heq
            subst hc
            rw [← he, List.flatten_append]
            simp only [List.flatten_cons, List.flatten_nil, List.append_nil]
            refine ⟨hp, ?_⟩
            intro c hcmem
            rcases List.mem_append.mp hcmem with hcl | hcl
            · exact hne c hcl
            · rw [List.mem_singleton.mp hcl]
              simp
          · exact absurd h (by simp)
        · injection h with he
          rw [← he]
          exact ⟨(List.pairwise_append.mp hp).1, hne⟩
    · exact absurd h (by simp)
    · split at h
      · split at h <;> rename_i heq
        · injection h with he
          obtain ⟨hc, -⟩ := mkClusterHits_ok heq
          subst hc
          rw [← he]
          simp
        · exact absurd h (by simp)
      · split at h
        · split at h <;> rename_i heq
          · injection h with he
            obtain ⟨hc, -⟩ := mkClusterHits_ok heq
            subst hc
            rw [← he]
            simp
          · exact absurd h (by simp)
        · injection h with he
          rw [← he]
          simp
  · injection h with he
    rw [← he]
    rw [List.append_nil] at hp
    exact ⟨hp, hne⟩

/-- The circular stitch is a no-op on a linear replicon. -/
theorem stitch_linear {rep : RepInfo} {clusters cs' : List (List MHit)}
    (hlin : rep.topology = Topology.linear)
    (hp : clusters.flatten.Pairwise posLt)
    (h : stitch rep clusters = .ok cs') : cs' = clusters := by
  unfold stitch at h
  split at h
  · split at h
    · rename_i lastC firstC hlast hhead
      split at h
      · rename_i l1 f0 hl1 hf0
        have hmemlast : lastC ∈ clusters := List.mem_of_getLast?_eq_some hlast
        have hl1mem : l1 ∈ clusters.flatten :=
          (List.sublist_flatten_of_mem hmemlast).subset (List.mem_of_getLast?_eq_some hl1)
        obtain ⟨ftail, hftail⟩ : ∃ t, firstC = f0 :: t := by
          cases firstC with
          | nil => exact absurd hf0 (by simp)
          | cons a t =>
            injection hf0 with ha
            exact ⟨t, by rw [ha]⟩
        obtain ⟨ctail, hctail⟩ : ∃ t, clusters = firstC :: t := by
          cases clusters with
          | nil => exact absurd hhead (by simp)
          | cons a t =>
            injection hhead with ha
            exact ⟨t, by rw [ha]⟩
        have hflat : clusters.flatten = f0 :: (ftail ++ ctail.flatten) := by
          rw [hctail, hftail]
          simp
        have hle : f0.position ≤ l1.position := by
          rw [hflat] at hl1mem hp
          rcases List.mem_cons.mp hl1mem with rfl | hl1mem
          · exact le_refl _
          · exact le_of_lt ((List.pairwise_cons.mp hp).1 l1 hl1mem)
        have hcoll : collocates l1 f0 rep = false :=
          collocates_linear_false l1 f0 rep hlin hle
        rw [hcoll] at h
        simp only [Bool.false_eq_true, if_false] at h
        injection h with he
        exact he.symm
      · exact absurd h (by simp)
    · injection h with he
      exact he.symm
  · injection h with he
    exact he.symm

end Mcs.Coloc

/-- C3: the clusterizer sorts by `(position ascending, score descending)`
and keeps one best-scoring hit per position, so (a) the deduplicated list
is strictly increasing in position, each kept hit is an input hit carrying
the maximal score among the input hits at its position, with every input
position represented; and (b) on a linear replicon every produced cluster
has strictly increasing positions (hence no two hits share a position). -/
theorem C3_clusterize_canonicalize (hits : List Mcs.Coloc.MHit)
    (model : Mcs.Coloc.CModel) (rep : Mcs.Coloc.RepInfo)
    (cs : List (List Mcs.Coloc.MHit))
    (hlin : rep.topology = Mcs.Coloc.Topology.linear)
    (hok : Mcs.Coloc.clusterize hits model rep = .ok (some cs)) :
    (∀ c ∈ cs, c.Pairwise Mcs.Coloc.posLt) ∧
    (Mcs.Coloc.dedupByPos (Mcs.Coloc.sortHits hits)).Pairwise Mcs.Coloc.posLt ∧
    (∀ h1 ∈ Mcs.Coloc.dedupByPos (Mcs.Coloc.sortHits hits), h1 ∈ hits ∧
      ∀ h2 ∈ hits, h2.position = h1.position → h2.score ≤ h1.score) ∧
    (∀ h2 ∈ hits, ∃ h1 ∈ Mcs.Coloc.dedupByPos (Mcs.Coloc.sortHits hits),
      h1.position = h2.position) := by
  have hsorted : (Mcs.Coloc.sortHits hits).Pairwise Mcs.Coloc.hitLe :=
    List.sorted_insertionSort Mcs.Coloc.hitLe hits
  have hdedupPw := Mcs.Coloc.dedupByPos_pairwise_posLt _ hsorted
  refine ⟨?_, hdedupPw, ?_, ?_⟩
  · unfold Mcs.Coloc.clusterize at hok
    split at hok
    · exact absurd hok (by simp)
    · rename_i h0 rest hdedup
      cases hsweep : Mcs.Coloc.sweepLoop model rep rest [h0] h0 [] with
      | error e =>
        rw [hsweep] at hok
        simp at hok
      | ok p =>
        obtain ⟨clusters, scaffold⟩ := p
        rw [hsweep] at hok
        simp only [] at hok
        cases hclose : Mcs.Coloc.closeFinal model rep clusters scaffold with
        | error e =>
          rw [hclose] at hok
          simp at hok
        | ok clusters' =>
          rw [hclose] at hok
          simp only [] at hok
          cases hstitch : Mcs.Coloc.stitch rep clusters' with
          | error e =>
            rw [hstitch] at hok
            simp at hok
          | ok clusters'' =>
            rw [hstitch] at hok
            simp only [Except.ok.injEq, Option.some.injEq] at hok
            have hpw0 : (h0 :: rest).Pairwise Mcs.Coloc.posLt := by
              rw [← hdedup]
              exact hdedupPw
            obtain ⟨hp1, hne1, -⟩ :=
              Mcs.Coloc.sweepLoop_inv model rep rest [h0] h0 [] (clusters, scaffold)
                (by simpa using hpw0) (by simp) (by simp) hsweep
            obtain ⟨hpf, hnef⟩ :=
              Mcs.Coloc.closeFinal_linear hlin hp1 hne1 hclose
            have hcs : clusters'' = clusters' :=
              Mcs.Coloc.stitch_linear hlin hpf hstitch
            rw [← hok, hcs]
            intro c hcmem
            exact hpf.sublist (List.sublist_flatten_of_mem hcmem)
  · intro h1 hmem
    refine ⟨?_, ?_⟩
    · exact Mcs.Coloc.mem_sortHits.mp (Mcs.Coloc.dedupByPos_subset _ hmem)
    · intro h2 hmem2 hpos
      exact Mcs.Coloc.dedupByPos_max_score _ hsorted h1 hmem h2
        (Mcs.Coloc.mem_sortHits.mpr hmem2) hpos
  · intro h2 hmem2
    exact Mcs.Coloc.dedupByPos_covers _ h2 (Mcs.Coloc.mem_sortHits.mpr hmem2)

/-- C3 witness: on hits `gspD@10 score=5`, `gspD@10 score=9`, `sctJ@12
score=4` the retained `gspD` hit is the score-9 one and one cluster of two
hits results; `C3_clusterize_canonicalize` applies to it. -/
theorem C3_clusterize_canonicalize_witness :
    Mcs.Coloc.clusterize
      [⟨0, "gspD", "R", 10, 5, ⟨"gspD", false, none, 10⟩⟩,
       ⟨1, "gspD", "R", 10, 9, ⟨"gspD", false, none, 10⟩⟩,
       ⟨2, "sctJ", "R", 12, 4, ⟨"sctJ", false, none, 10⟩⟩]
      ⟨10, some 2, [.node "gspD" false [] []], [.node "sctJ" false [] []], []⟩
      ⟨.linear, 1, 1000⟩ =
      .ok (some [[⟨1, "gspD", "R", 10, 9, ⟨"gspD", false, none, 10⟩⟩,
                  ⟨2, "sctJ", "R", 12, 4, ⟨"sctJ", false, none, 10⟩⟩]]) ∧
    (∀ c ∈ [[(⟨1, "gspD", "R", 10, 9, ⟨"gspD", false, none, 10⟩⟩ : Mcs.Coloc.MHit),
             ⟨2, "sctJ", "R", 12, 4, ⟨"sctJ", false, none, 10⟩⟩]],
      c.Pairwise Mcs.Coloc.posLt) := by
  have hcl : Mcs.Coloc.clusterize
      [⟨0, "gspD", "R", 10, 5, ⟨"gspD", false, none, 10⟩⟩,
       ⟨1, "gspD", "R", 10, 9, ⟨"gspD", false, none, 10⟩⟩,
       ⟨2, "sctJ", "R", 12, 4, ⟨"sctJ", false, none, 10⟩⟩]
      ⟨10, some 2, [.node "gspD" false [] []], [.node "sctJ" false [] []], []⟩
      ⟨.linear, 1, 1000⟩ =
      .ok (some [[⟨1, "gspD", "R", 10, 9, ⟨"gspD", false, none, 10⟩⟩,
                  ⟨2, "sctJ", "R", 12, 4, ⟨"sctJ", false, none, 10⟩⟩]]) := by
    rfl
  exact ⟨hcl, (C3_clusterize_canonicalize _ _ _ _ rfl hcl).1⟩

/-- C9: building a `Cluster` from a non-empty hit list fails (with the fatal
`MacsypyError`) iff the hits do not all carry the replicon name of the
first hit; on success the stored hits are exactly those passed; and a
`System` reads its replicon name from its first cluster. -/
theorem C9_cluster_replicon_purity (hits : List Mcs.Coloc.MHit)
    (h0 : Mcs.Coloc.MHit) (t : List Mcs.Coloc.MHit) (hne : hits = h0 :: t) :
    ((∃ e, Mcs.Coloc.mkClusterHits hits = .error e) ↔
      ¬ ∀ h ∈ hits, h.repliconName = h0.repliconName) ∧
    (∀ l, Mcs.Coloc.mkClusterHits hits = .ok l → l = hits) ∧
    (∀ cs, Mcs.Coloc.systemRepliconName (hits :: cs) = .ok h0.repliconName) := by
  subst hne
  refine ⟨?_, ?_, ?_⟩
  · rw [Mcs.Coloc.mkClusterHits_cons]
    by_cases hall : ∀ h ∈ h0 :: t, h.repliconName = h0.repliconName
    · rw [if_pos ((Mcs.Coloc.allRepliconEq_iff h0 t).mpr hall)]
      exact iff_of_false (fun ⟨e, he⟩ => by cases he) (not_not_intro hall)
    · rw [if_neg (fun hb => hall ((Mcs.Coloc.allRepliconEq_iff h0 t).mp hb))]
      exact iff_of_true ⟨_, rfl⟩ hall
  · intro l hl
    rw [Mcs.Coloc.mkClusterHits_cons] at hl
    split at hl
    · injection hl with h
      exact h.symm
    · exact absurd hl (by simp)
  · intro cs
    rfl

/-- C9 witness: concrete instantiation of `C9_cluster_replicon_purity`. -/
theorem C9_cluster_replicon_purity_witness :
    ∃ e, Mcs.Coloc.mkClusterHits
      [{ id := 0, geneName := "gspD", repliconName := "R", position := 10, score := 1,
         geneRef := { name := "gspD", loner := false, interGeneMaxSpace := none,
                      modelInterGeneMaxSpace := 5 } },
       { id := 1, geneName := "sctJ", repliconName := "R2", position := 12, score := 1,
         geneRef := { name := "sctJ", loner := false, interGeneMaxSpace := none,
                      modelInterGeneMaxSpace := 5 } }] = .error e := by
  have h := C9_cluster_replicon_purity
    [{ id := 0, geneName := "gspD", repliconName := "R", position := 10, score := 1,
       geneRef := { name := "gspD", loner := false, interGeneMaxSpace := none,
                    modelInterGeneMaxSpace := 5 } },
     { id := 1, geneName := "sctJ", repliconName := "R2", position := 12, score := 1,
       geneRef := { name := "sctJ", loner := false, interGeneMaxSpace := none,
                    modelInterGeneMaxSpace := 5 } }]
    { id := 0, geneName := "gspD", repliconName := "R", position := 10, score := 1,
      geneRef := { name := "gspD", loner := false, interGeneMaxSpace := none,
                   modelInterGeneMaxSpace := 5 } }
    [{ id := 1, geneName := "sctJ", repliconName := "R2", position := 12, score := 1,
       geneRef := { name := "sctJ", loner := false, interGeneMaxSpace := none,
                    modelInterGeneMaxSpace := 5 } }]
    rfl
  exact h.1.mpr (by decide)

/-- C2: for hits with `h1.position ≤ h2.position`, `_collocates` holds iff
`0 ≤ d ≤ D` for `d = h2.position - h1.position - 1` and the claimed bound
`D`, or — on a circular replicon when `d ≤ 0` — the wraparound distance
`(max - h1.position) + (h2.position - min)` is at most the same `D`. -/
theorem C2_collocates_spec (h1 h2 : Mcs.Coloc.MHit) (rep : Mcs.Coloc.RepInfo)
    (_hord : h1.position ≤ h2.position) :
    Mcs.Coloc.collocates h1 h2 rep = true ↔
      (0 ≤ h2.position - h1.position - 1 ∧
        h2.position - h1.position - 1 ≤ Mcs.Coloc.effectiveD h1 h2) ∨
      (rep.topology = Mcs.Coloc.Topology.circular ∧
        h2.position - h1.position - 1 ≤ 0 ∧
        rep.max - h1.position + h2.position - rep.min ≤ Mcs.Coloc.effectiveD h1 h2) := by
  rw [Mcs.Coloc.collocates_eq]
  generalize Mcs.Coloc.effectiveD h1 h2 = D
  split <;> rename_i hc1
  · simp only [true_iff]
    exact Or.inl hc1
  · split <;> rename_i hc2
    · simp only [decide_eq_true_eq]
      constructor
      · intro hw
        exact Or.inr ⟨hc2.2, hc2.1, hw⟩
      · rintro (hfst | ⟨-, -, hw⟩)
        · exact absurd hfst hc1
        · exact hw
    · simp only [Bool.false_eq_true, false_iff]
      rintro (hfst | ⟨hcirc, hle, -⟩)
      · exact hc1 hfst
      · exact hc2 ⟨hle, hcirc⟩

/-- C2 witness: concrete instantiation of `C2_collocates_spec`. -/
theorem C2_collocates_spec_witness :
    Mcs.Coloc.collocates
        { id := 0, geneName := "gspD", repliconName := "R", position := 98, score := 1,
          geneRef := { name := "gspD", loner := false, interGeneMaxSpace := none,
                       modelInterGeneMaxSpace := 5 } }
        { id := 1, geneName := "sctJ", repliconName := "R", position := 3, score := 1,
          geneRef := { name := "sctJ", loner := false, interGeneMaxSpace := none,
                       modelInterGeneMaxSpace := 5 } }
        { topology := Mcs.Coloc.Topology.circular, min := 1, max := 100 } = true := by
  have h := C2_collocates_spec
    { id := 1, geneName := "sctJ", repliconName := "R", position := 3, score := 1,
      geneRef := { name := "sctJ", loner := false, interGeneMaxSpace := none,
                   modelInterGeneMaxSpace := 5 } }
    { id := 0, geneName := "gspD", repliconName := "R", position := 98, score := 1,
      geneRef := { name := "gspD", loner := false, interGeneMaxSpace := none,
                   modelInterGeneMaxSpace := 5 } }
    { topology := Mcs.Coloc.Topology.circular, min := 1, max := 100 }
    (by decide)
  decide

/-- C10: when `min_mandatory_genes_required` (resp. `min_genes_required`) is
not supplied, reading the property returns the current number of mandatory
genes; the `ModelInconsistencyError` check runs only when both values are
supplied, so a model with at most one of them set is never rejected. -/
theorem C10_model_quorum_defaults (m : Mcs.ModelM.ModelData)
    (fqn : String) (igms : Int) (mmg mg maxNb : Option Int) (ml : Bool) :
    (m.minMandatoryGenesRequiredOpt = none →
      m.minMandatoryGenesRequired = m.mandatoryGenes.length) ∧
    (m.minGenesRequiredOpt = none →
      m.minGenesRequired = m.mandatoryGenes.length) ∧
    ((∃ e, Mcs.ModelM.mkModel fqn igms mmg mg maxNb ml = .error e) ↔
      (∃ a b, mmg = some a ∧ mg = some b ∧ b < a)) := by
  refine ⟨?_, ?_, ?_⟩
  · intro h
    simp [Mcs.ModelM.ModelData.minMandatoryGenesRequired, h]
  · intro h
    simp [Mcs.ModelM.ModelData.minGenesRequired, h]
  · constructor
    · rintro ⟨e, he⟩
      rcases mmg with _ | a
      · rcases mg with _ | b <;> simp [Mcs.ModelM.mkModel] at he
      · rcases mg with _ | b
        · simp [Mcs.ModelM.mkModel] at he
        · by_cases hba : b < a
          · exact ⟨a, b, rfl, rfl, hba⟩
          · simp [Mcs.ModelM.mkModel, hba] at he
    · rintro ⟨a, b, rfl, rfl, hba⟩
      refine ⟨.modelInconsistencyError
        (fqn ++ ": min_genes_required must be greater or equal than min_mandatory_genes_required"), ?_⟩
      simp [Mcs.ModelM.mkModel, hba]

/-- C10 witness: concrete instantiation of `C10_model_quorum_defaults`. -/
theorem C10_model_quorum_defaults_witness :
    (Mcs.ModelM.addMandatoryGene
        (Mcs.ModelM.addMandatoryGene
          { fqn := "T/m", interGeneMaxSpace := 3,
            minMandatoryGenesRequiredOpt := none, minGenesRequiredOpt := none,
            maxNbGenes := none, multiLoci := false,
            mandatoryGenes := [], accessoryGenes := [], forbiddenGenes := [] }
          "gspD") "sctJ").minGenesRequired = 2 ∧
    (∃ e, Mcs.ModelM.mkModel "T/m" 3 (some 2) (some 1) none false = .error e) := by
  have h := C10_model_quorum_defaults
    (Mcs.ModelM.addMandatoryGene
      (Mcs.ModelM.addMandatoryGene
        { fqn := "T/m", interGeneMaxSpace := 3,
          minMandatoryGenesRequiredOpt := none, minGenesRequiredOpt := none,
          maxNbGenes := none, multiLoci := false,
          mandatoryGenes := [], accessoryGenes := [], forbiddenGenes := [] }
        "gspD") "sctJ")
    "T/m" 3 (some 2) (some 1) none false
  refine ⟨?_, h.2.2.mpr ⟨2, 1, rfl, rfl, by decide⟩⟩
  have h2 := h.2.1 rfl
  simpa using h2

namespace Mcs.ScoreC

theorem hitScore_ok_val {w : HitWeight} {h : SHit} {s : Rat}
    (hok : hitScore w h = .ok s) : s = hitScoreVal w h := by
  cases hst : h.status <;>
    simp [hitScore, hst, hitScore.weighHit, hitScoreVal] at hok ⊢ <;>
    exact hok.symm

theorem hitScore_ok_of_counted {w : HitWeight} {h : SHit}
    (hc : statusCounted h) : hitScore w h = .ok (hitScoreVal w h) := by
  rcases hc with hst | hst | hst <;>
    simp [hitScore, hst, hitScore.weighHit, hitScoreVal]

theorem hitScore_error_of_not_counted {w : HitWeight} {h : SHit}
    (hc : ¬ statusCounted h) : ∃ e, hitScore w h = .error e := by
  cases hst : h.status
  · exact absurd (Or.inl hst) hc
  · exact absurd (Or.inr (Or.inl hst)) hc
  · exact absurd (Or.inr (Or.inr hst)) hc
  · exact ⟨.macsypyError
      ("a Cluster contains hit " ++ h.geneName ++ " which is neither mandatory nor accessory"),
      by simp [hitScore, hst]⟩

theorem updValue_keys (seen : List (String × Rat)) (k : String) (v : Rat) :
    (updValue seen k v).map Prod.fst = seen.map Prod.fst := by
  induction seen with
  | nil => rfl
  | cons p rest ih =>
    obtain ⟨k', v'⟩ := p
    rw [updValue]
    split
    · rfl
    · simp [ih]

theorem lookup_updValue_self (seen : List (String × Rat)) (k : String) (v : Rat)
    (hs : (seen.lookup k).isSome) : (updValue seen k v).lookup k = some v := by
  induction seen with
  | nil => simp [List.lookup] at hs
  | cons p rest ih =>
    obtain ⟨k', v'⟩ := p
    rw [updValue]
    split <;> rename_i hk
    · have : k = k' := (beq_iff_eq.mp hk).symm
      simp [List.lookup, this]
    · have hne : (k == k') = false := by
        rw [beq_eq_false_iff_ne]
        intro he
        exact absurd (beq_iff_eq.mpr he.symm) (by simp [hk])
      rw [List.lookup_cons] at hs ⊢
      rw [hne] at hs ⊢
      exact ih hs

theorem lookup_updValue_ne (seen : List (String × Rat)) (k k' : String) (v : Rat)
    (hne : k' ≠ k) : (updValue seen k v).lookup k' = seen.lookup k' := by
  induction seen with
  | nil => rfl
  | cons p rest ih =>
    obtain ⟨k0, v0⟩ := p
    rw [updValue]
    split <;> rename_i hk
    · have hk0 : k0 = k := beq_iff_eq.mp hk
      have : (k' == k0) = false := by
        rw [beq_eq_false_iff_ne, hk0]
        exact hne
      simp [List.lookup_cons, this]
    · simp only [List.lookup_cons]
      cases hkk : k' == k0
      · exact ih
      · rfl

theorem lookup_append (l1 l2 : List (String × Rat)) (a : String) :
    (l1 ++ l2).lookup a =
      match l1.lookup a with
      | some v => some v
      | none => l2.lookup a := by
  induction l1 with
  | nil => simp [List.lookup]
  | cons p rest ih =>
    obtain ⟨k, v⟩ := p
    simp only [List.cons_append, List.lookup_cons]
    cases hkk : a == k
    · exact ih
    · rfl

theorem seenUpdate_keys (seen : List (String × Rat)) (k : String) (v : Rat) :
    (seenUpdate seen k v).map Prod.fst =
      if (seen.lookup k).isSome then seen.map Prod.fst
      else seen.map Prod.fst ++ [k] := by
  cases hl : seen.lookup k with
  | some old =>
    have hdef : seenUpdate seen k v = if old < v then updValue seen k v else seen := by
      unfold seenUpdate
      rw [hl]
    rw [hdef]
    simp only [Option.isSome_some, if_true]
    split
    · exact updValue_keys seen k v
    · rfl
  | none =>
    have hdef : seenUpdate seen k v = seen ++ [(k, v)] := by
      unfold seenUpdate
      rw [hl]
    rw [hdef]
    simp

theorem lookup_seenUpdate_self (seen : List (String × Rat)) (k : String) (v : Rat) :
    (seenUpdate seen k v).lookup k = mergeMax (seen.lookup k) (some v) := by
  cases hl : seen.lookup k with
  | some old =>
    have hdef : seenUpdate seen k v = if old < v then updValue seen k v else seen := by
      unfold seenUpdate
      rw [hl]
    rw [hdef]
    split <;> rename_i hlt
    · rw [lookup_updValue_self seen k v (by simp [hl])]
      simp [mergeMax, max_eq_right (le_of_lt hlt)]
    · rw [hl]
      simp [mergeMax, max_eq_left (le_of_not_lt hlt)]
  | none =>
    have hdef : seenUpdate seen k v = seen ++ [(k, v)] := by
      unfold seenUpdate
      rw [hl]
    rw [hdef, lookup_append, hl]
    simp [List.lookup, mergeMax]

theorem lookup_seenUpdate_ne (seen : List (String × Rat)) (k k' : String) (v : Rat)
    (hne : k' ≠ k) : (seenUpdate seen k v).lookup k' = seen.lookup k' := by
  cases hl : seen.lookup k with
  | some old =>
    have hdef : seenUpdate seen k v = if old < v then updValue seen k v else seen := by
      unfold seenUpdate
      rw [hl]
    rw [hdef]
    split
    · exact lookup_updValue_ne seen k k' v hne
    · rfl
  | none =>
    have hdef : seenUpdate seen k v = seen ++ [(k, v)] := by
      unfold seenUpdate
      rw [hl]
    rw [hdef, lookup_append]
    cases hlk : seen.lookup k' with
    | some w0 => rfl
    | none =>
      have hb : (k' == k) = false := beq_eq_false_iff_ne.mpr hne
      simp [List.lookup, hb]

theorem lookup_isSome_iff_mem (seen : List (String × Rat)) (k : String) :
    (seen.lookup k).isSome ↔ k ∈ seen.map Prod.fst := by
  induction seen with
  | nil => simp [List.lookup]
  | cons p rest ih =>
    obtain ⟨k0, v0⟩ := p
    simp only [List.lookup_cons, List.map_cons, List.mem_cons]
    cases hkk : k == k0
    · rw [ih]
      have : ¬ k = k0 := by
        intro he
        exact absurd (beq_iff_eq.mpr he) (by simp [hkk])
      simp [this]
    · have : k = k0 := beq_iff_eq.mp hkk
      simp [this]

theorem mergeMax_assoc (a b c : Option Rat) :
    mergeMax (mergeMax a b) c = mergeMax a (mergeMax b c) := by
  cases a <;> cases b <;> cases c <;> simp [mergeMax, max_assoc]

theorem foldl_max_shift : ∀ (l : List Rat) (v a : Rat),
    l.foldl max (max v a) = max v (l.foldl max a) := by
  intro l
  induction l with
  | nil => intro v a; rfl
  | cons b l ih =>
    intro v a
    simp only [List.foldl_cons]
    rw [max_assoc, ih]

theorem maxFold_cons (v : Rat) (l : List Rat) :
    maxFold (v :: l) = mergeMax (some v) (maxFold l) := by
  cases l with
  | nil => rfl
  | cons a l =>
    simp only [maxFold, mergeMax, List.foldl_cons]
    rw [foldl_max_shift]

theorem maxScoreOfKey_cons_eq {w : HitWeight} {h : SHit} {t : List SHit} {k : String}
    (hk : h.altOfName = k) :
    maxScoreOfKey w (h :: t) k = mergeMax (some (hitScoreVal w h)) (maxScoreOfKey w t k) := by
  unfold maxScoreOfKey
  rw [List.filter_cons, if_pos (by simp [hk])]
  rw [List.map_cons, maxFold_cons]

theorem maxScoreOfKey_cons_ne {w : HitWeight} {h : SHit} {t : List SHit} {k : String}
    (hk : h.altOfName ≠ k) :
    maxScoreOfKey w (h :: t) k = maxScoreOfKey w t k := by
  unfold maxScoreOfKey
  rw [List.filter_cons, if_neg (by simp [hk])]

/-- Invariant of the `seen_hits` loop: each key holds the maximum per-hit
score of the processed hits merged with its initial value, and the keys
accumulate in first-occurrence order. -/
theorem scoreLoop_ok_spec (w : HitWeight) :
    ∀ (hits : List SHit) (seen seen' : List (String × Rat)),
      scoreLoop w hits seen = .ok seen' →
      (∀ k, seen'.lookup k = mergeMax (seen.lookup k) (maxScoreOfKey w hits k)) ∧
      seen'.map Prod.fst = keysInAux (seen.map Prod.fst) (hits.map SHit.altOfName) := by
  intro hits
  induction hits with
  | nil =>
    intro seen seen' hok
    rw [scoreLoop] at hok
    injection hok with he
    subst he
    constructor
    · intro k
      cases hl : seen.lookup k <;> simp [mergeMax, maxScoreOfKey, maxFold]
    · rfl
  | cons h t ih =>
    intro seen seen' hok
    rw [scoreLoop] at hok
    cases hhs : hitScore w h with
    | error e =>
      rw [hhs] at hok
      exact absurd hok (by simp)
    | ok s =>
      rw [hhs] at hok
      simp only [] at hok
      have hsval : s = hitScoreVal w h := hitScore_ok_val hhs
      subst hsval
      obtain ⟨hlk, hks⟩ := ih (seenUpdate seen h.altOfName (hitScoreVal w h)) seen' hok
      constructor
      · intro k
        by_cases hk : k = h.altOfName
        · subst hk
          rw [hlk h.altOfName, lookup_seenUpdate_self]
          rw [maxScoreOfKey_cons_eq rfl, mergeMax_assoc]
        · rw [hlk k, lookup_seenUpdate_ne seen _ k _ hk]
          rw [maxScoreOfKey_cons_ne (fun he => hk he.symm)]
      · rw [hks, seenUpdate_keys]
        simp only [List.map_cons]
        rw [keysInAux]
        by_cases hmem : h.altOfName ∈ seen.map Prod.fst
        · rw [if_pos ((lookup_isSome_iff_mem seen _).mpr hmem), if_pos hmem]
        · rw [if_neg (fun hs => hmem ((lookup_isSome_iff_mem seen _).mp hs)), if_neg hmem]

theorem keysInAux_nodup : ∀ (l acc : List String), acc.Nodup → (keysInAux acc l).Nodup := by
  intro l
  induction l with
  | nil => intro acc h; exact h
  | cons k t ih =>
    intro acc h
    rw [keysInAux]
    split <;> rename_i hmem
    · exact ih acc h
    · refine ih (acc ++ [k]) ?_
      simp [List.nodup_append, h, hmem]

theorem sumValues_eq_keys :
    ∀ seen : List (String × Rat), (seen.map Prod.fst).Nodup →
      sumValues seen =
        ((seen.map Prod.fst).map (fun k => (seen.lookup k).getD 0)).sum := by
  intro seen
  induction seen with
  | nil => intro _; rfl
  | cons p t ih =>
    intro hnd
    obtain ⟨k, v⟩ := p
    simp only [List.map_cons, List.nodup_cons] at hnd
    obtain ⟨hknot, hndt⟩ := hnd
    have hself : (((k, v) :: t).lookup k) = some v := by
      simp [List.lookup_cons]
    have hcongr : (t.map Prod.fst).map (fun k' => ((((k, v) :: t).lookup k')).getD 0) =
        (t.map Prod.fst).map (fun k' => (t.lookup k').getD 0) := by
      refine List.map_congr_left ?_
      intro k' hk'
      have hne : (k' == k) = false := by
        rw [beq_eq_false_iff_ne]
        intro he
        exact hknot (he ▸ hk')
      simp [List.lookup_cons, hne]
    simp only [sumValues, List.map_cons, List.sum_cons] at ih ⊢
    rw [hself]
    simp only [Option.getD_some]
    rw [hcongr, ← ih hndt]

theorem scoreLoop_error_iff (w : HitWeight) :
    ∀ (hits : List SHit) (seen : List (String × Rat)),
      (∃ e, scoreLoop w hits seen = .error e) ↔ ∃ h ∈ hits, ¬ statusCounted h := by
  intro hits
  induction hits with
  | nil =>
    intro seen
    constructor
    · rintro ⟨e, he⟩
      rw [scoreLoop] at he
      exact absurd he (by simp)
    · rintro ⟨h, hmem, -⟩
      simp at hmem
  | cons h t ih =>
    intro seen
    by_cases hc : statusCounted h
    · rw [scoreLoop]
      rw [hitScore_ok_of_counted hc]
      simp only []
      rw [ih]
      constructor
      · rintro ⟨h2, hmem, hnc⟩
        exact ⟨h2, List.mem_cons_of_mem _ hmem, hnc⟩
      · rintro ⟨h2, hmem, hnc⟩
        rcases List.mem_cons.mp hmem with rfl | hmem
        · exact absurd hc hnc
        · exact ⟨h2, hmem, hnc⟩
    · obtain ⟨e, he⟩ := hitScore_error_of_not_counted hc
      rw [scoreLoop, he]
      exact iff_of_true ⟨e, rfl⟩ ⟨h, List.mem_cons_self _ _, hc⟩

end Mcs.ScoreC

/-- C4: `Cluster.score` fails (with the `MacsypyError` of the scoring
code) iff some hit's status is none of mandatory/accessory/neutral; on
success it returns the sum, over the functional keys present in the
cluster, of the maximum per-hit score of that key, each per-hit score
being the status weight times the exchangeable-or-itself weight times the
loner-multi-system weight when both flags hold. -/
theorem C4_cluster_score_spec (w : Mcs.ScoreC.HitWeight) (hits : List Mcs.ScoreC.SHit) :
    ((∃ e, Mcs.ScoreC.clusterScore w hits = .error e) ↔
      ∃ h ∈ hits, ¬ Mcs.ScoreC.statusCounted h) ∧
    (∀ s, Mcs.ScoreC.clusterScore w hits = .ok s →
      s = ((Mcs.ScoreC.keysIn (hits.map Mcs.ScoreC.SHit.altOfName)).map
            (fun k => (Mcs.ScoreC.maxScoreOfKey w hits k).getD 0)).sum) := by
  constructor
  · rw [← Mcs.ScoreC.scoreLoop_error_iff w hits []]
    unfold Mcs.ScoreC.clusterScore
    cases hsl : Mcs.ScoreC.scoreLoop w hits [] with
    | error e => exact iff_of_true ⟨e, rfl⟩ ⟨e, rfl⟩
    | ok seen =>
      refine iff_of_false ?_ ?_
      · rintro ⟨e, he⟩
        exact Except.noConfusion he
      · rintro ⟨e, he⟩
        exact Except.noConfusion he
  · intro s hok
    unfold Mcs.ScoreC.clusterScore at hok
    cases hsl : Mcs.ScoreC.scoreLoop w hits [] with
    | error e =>
      rw [hsl] at hok
      exact absurd hok (by simp)
    | ok seen =>
      rw [hsl] at hok
      injection hok with he
      subst he
      obtain ⟨hlk, hks⟩ := Mcs.ScoreC.scoreLoop_ok_spec w hits [] seen hsl
      have hnd : (seen.map Prod.fst).Nodup := by
        rw [hks]
        exact Mcs.ScoreC.keysInAux_nodup _ [] List.nodup_nil
      rw [Mcs.ScoreC.sumValues_eq_keys seen hnd, hks]
      refine congrArg List.sum (List.map_congr_left ?_)
      intro k hk
      rw [hlk k]
      simp [Mcs.ScoreC.mergeMax]

/-- C4 witness: concrete instantiation of `C4_cluster_score_spec` — a
cluster with two hits of the same function keeps the better score once,
and a forbidden-status hit makes scoring fail. -/
theorem C4_cluster_score_spec_witness :
    (∃ e, Mcs.ScoreC.clusterScore
      ⟨2, 1, 0, 3, 1, 1⟩
      [⟨0, "sctC", 9, .forbidden, false, false, false, "sctC"⟩] = .error e) ∧
    Mcs.ScoreC.clusterScore
      ⟨2, 1, 0, 3, 1, 1⟩
      [⟨0, "gspD", 10, .mandatory, false, false, false, "gspD"⟩,
       ⟨1, "gspD2", 11, .mandatory, true, false, false, "gspD"⟩,
       ⟨2, "sctJ", 12, .accessory, false, false, false, "sctJ"⟩] = .ok 7 := by
  constructor
  · exact (C4_cluster_score_spec
      ⟨2, 1, 0, 3, 1, 1⟩
      [⟨0, "sctC", 9, .forbidden, false, false, false, "sctC"⟩]).1.mpr
      ⟨⟨0, "sctC", 9, .forbidden, false, false, false, "sctC"⟩,
        by simp, by simp [Mcs.ScoreC.statusCounted]⟩
  · simp [Mcs.ScoreC.clusterScore, Mcs.ScoreC.scoreLoop, Mcs.ScoreC.hitScore,
      Mcs.ScoreC.hitScore.weighHit, Mcs.ScoreC.seenUpdate, Mcs.ScoreC.updValue,
      Mcs.ScoreC.sumValues, List.lookup]
    norm_num

namespace Mcs.ScoreC

theorem penaltyFold_eq (m : SysModel) (clusters : List (List SHit)) (base : Rat) :
    penaltyFold m clusters base =
      base - (3 / 2) * ((m.mandatoryGenes ++ m.accessoryGenes).map
        (fun g => ((clusters.countP (fun c => fulfilledFunction c g) - 1 : Nat) : Rat))).sum := by
  unfold penaltyFold
  generalize (m.mandatoryGenes ++ m.accessoryGenes) = gs
  induction gs generalizing base with
  | nil => simp
  | cons g gs ih =>
    simp only [List.foldl_cons, List.map_cons, List.sum_cons]
    by_cases hn : 0 < clusters.countP (fun c => fulfilledFunction c g)
    · rw [if_pos hn, ih]
      have h1 : 1 ≤ clusters.countP (fun c => fulfilledFunction c g) := hn
      rw [Nat.cast_sub h1]
      push_cast
      ring
    · rw [if_neg hn, ih]
      have h0 : clusters.countP (fun c => fulfilledFunction c g) = 0 :=
        Nat.eq_zero_of_not_pos hn
      rw [h0]
      norm_num

theorem clusterScoresAcc_append_single (w : HitWeight)
    {clusters : List (List SHit)} {d : List SHit} {ss : List Rat} {dv : Rat}
    (h1 : clusterScoresAcc w clusters = .ok ss) (h2 : clusterScore w d = .ok dv) :
    clusterScoresAcc w (clusters ++ [d]) = .ok (ss ++ [dv]) := by
  induction clusters generalizing ss with
  | nil =>
    rw [clusterScoresAcc] at h1
    injection h1 with he
    subst he
    simp [clusterScoresAcc, h2]
  | cons c t ih =>
    rw [clusterScoresAcc] at h1
    cases hc : clusterScore w c with
    | error e =>
      rw [hc] at h1
      exact absurd h1 (by simp)
    | ok s =>
      rw [hc] at h1
      cases ht : clusterScoresAcc w t with
      | error e =>
        rw [ht] at h1
        exact absurd h1 (by simp)
      | ok st =>
        rw [ht] at h1
        injection h1 with he
        subst he
        have := ih ht
        simp only [List.cons_append]
        rw [clusterScoresAcc, hc, this]

theorem sum_map_ite_count (p : String → Bool) (l : List String) :
    (l.map (fun g => if p g then (1 : Rat) else 0)).sum = ((l.filter p).length : Rat) := by
  induction l with
  | nil => simp
  | cons a l ih =>
    simp only [List.map_cons, List.sum_cons, List.filter_cons]
    by_cases hp : p a
    · simp only [hp, if_true, List.length_cons]
      rw [ih]
      push_cast
      ring
    · simp only [hp, Bool.false_eq_true, if_false]
      rw [ih]
      simp

theorem sum_map_add (f h : String → Rat) (l : List String) :
    (l.map (fun g => f g + h g)).sum = (l.map f).sum + (l.map h).sum := by
  induction l with
  | nil => simp
  | cons a l ih =>
    simp only [List.map_cons, List.sum_cons]
    rw [ih]
    ring

theorem penalty_term_dup {clusters : List (List SHit)} {d c0 : List SHit} {g : String}
    (hc0 : c0 ∈ clusters) (hdup : ∀ g, fulfilledFunction d g = fulfilledFunction c0 g) :
    (((clusters ++ [d]).countP (fun c => fulfilledFunction c g) - 1 : Nat) : Rat) =
      ((clusters.countP (fun c => fulfilledFunction c g) - 1 : Nat) : Rat) +
        (if fulfilledFunction d g then (1 : Rat) else 0) := by
  rw [List.countP_append]
  cases hfd : fulfilledFunction d g
  · simp [List.countP_cons, hfd]
  · have hfc : fulfilledFunction c0 g = true := by
      rw [← hdup g]
      exact hfd
    have hpos : 0 < clusters.countP (fun c => fulfilledFunction c g) :=
      List.countP_pos_iff.mpr ⟨c0, hc0, hfc⟩
    have hone : List.countP (fun c => fulfilledFunction c g) [d] = 1 := by
      simp [List.countP_cons, hfd]
    rw [hone, Nat.add_sub_cancel, Nat.cast_sub hpos]
    push_cast
    norm_num

theorem systemScore_ok (w : HitWeight) (m : SysModel)
    {clusters : List (List SHit)} {ss : List Rat}
    (h : clusterScoresAcc w clusters = .ok ss) :
    systemScore w m clusters = .ok (penaltyFold m clusters ss.sum) := by
  unfold systemScore
  rw [h]

end Mcs.ScoreC

/-- C5: `System.score` is the sum of the cluster scores minus `1.5` times,
for every mandatory or accessory gene of the model, the number of clusters
fulfilling its function beyond the first; consequently appending a
duplicate cluster whose hits fulfill exactly the functions of an existing
cluster changes the score by the duplicate's own score minus `1.5` times
the number of duplicated functions. -/
theorem C5_system_score_redundancy (w : Mcs.ScoreC.HitWeight) (m : Mcs.ScoreC.SysModel)
    (clusters : List (List Mcs.ScoreC.SHit)) (ss : List Rat)
    (hss : Mcs.ScoreC.clusterScoresAcc w clusters = .ok ss) :
    Mcs.ScoreC.systemScore w m clusters = .ok (ss.sum -
      (3 / 2) * ((m.mandatoryGenes ++ m.accessoryGenes).map
        (fun g => ((clusters.countP (fun c => Mcs.ScoreC.fulfilledFunction c g) - 1 : Nat) : Rat))).sum) ∧
    (∀ (d : List Mcs.ScoreC.SHit) (dv : Rat) (c0 : List Mcs.ScoreC.SHit),
      Mcs.ScoreC.clusterScore w d = .ok dv → c0 ∈ clusters →
      (∀ g, Mcs.ScoreC.fulfilledFunction d g = Mcs.ScoreC.fulfilledFunction c0 g) →
      ∀ s, Mcs.ScoreC.systemScore w m clusters = .ok s →
        Mcs.ScoreC.systemScore w m (clusters ++ [d]) = .ok (s + dv -
          (3 / 2) * (((m.mandatoryGenes ++ m.accessoryGenes).filter
            (fun g => Mcs.ScoreC.fulfilledFunction d g)).length : Rat))) := by
  have hbase : Mcs.ScoreC.systemScore w m clusters = .ok (ss.sum -
      (3 / 2) * ((m.mandatoryGenes ++ m.accessoryGenes).map
        (fun g => ((clusters.countP (fun c => Mcs.ScoreC.fulfilledFunction c g) - 1 : Nat) : Rat))).sum) := by
    rw [Mcs.ScoreC.systemScore_ok w m hss, Mcs.ScoreC.penaltyFold_eq]
  refine ⟨hbase, ?_⟩
  intro d dv c0 hd hc0 hdup s hs
  have hsval : s = ss.sum -
      (3 / 2) * ((m.mandatoryGenes ++ m.accessoryGenes).map
        (fun g => ((clusters.countP (fun c => Mcs.ScoreC.fulfilledFunction c g) - 1 : Nat) : Rat))).sum := by
    rw [hbase] at hs
    injection hs with he
    exact he.symm
  have hacc := Mcs.ScoreC.clusterScoresAcc_append_single w hss hd
  rw [Mcs.ScoreC.systemScore_ok w m hacc, Mcs.ScoreC.penaltyFold_eq]
  have hptw : (m.mandatoryGenes ++ m.accessoryGenes).map
      (fun g => (((clusters ++ [d]).countP (fun c => Mcs.ScoreC.fulfilledFunction c g) - 1 : Nat) : Rat)) =
      (m.mandatoryGenes ++ m.accessoryGenes).map
        (fun g => ((clusters.countP (fun c => Mcs.ScoreC.fulfilledFunction c g) - 1 : Nat) : Rat) +
          (if Mcs.ScoreC.fulfilledFunction d g then (1 : Rat) else 0)) := by
    refine List.map_congr_left ?_
    intro g hg
    exact Mcs.ScoreC.penalty_term_dup hc0 hdup
  rw [hptw, Mcs.ScoreC.sum_map_add, Mcs.ScoreC.sum_map_ite_count]
  rw [hsval]
  simp only [List.sum_append, List.sum_cons, List.sum_nil]
  ring_nf

/-- C5 witness: concrete instantiation of `C5_system_score_redundancy` —
one mandatory-gene cluster, then a duplicate of it: the score changes by
the duplicate's score minus `1.5`. -/
theorem C5_system_score_redundancy_witness :
    Mcs.ScoreC.systemScore ⟨2, 1, 0, 1, 1, 1⟩ ⟨["gspD"], []⟩
      [[⟨0, "gspD", 10, .mandatory, false, false, false, "gspD"⟩]] = .ok 2 ∧
    Mcs.ScoreC.systemScore ⟨2, 1, 0, 1, 1, 1⟩ ⟨["gspD"], []⟩
      [[⟨0, "gspD", 10, .mandatory, false, false, false, "gspD"⟩],
       [⟨1, "gspD", 20, .mandatory, false, false, false, "gspD"⟩]] = .ok (2 + 2 - (3 / 2) * 1) := by
  have hcl : Mcs.ScoreC.clusterScoresAcc ⟨2, 1, 0, 1, 1, 1⟩
      [[(⟨0, "gspD", 10, .mandatory, false, false, false, "gspD"⟩ : Mcs.ScoreC.SHit)]] =
      .ok [2] := by
    simp [Mcs.ScoreC.clusterScoresAcc, Mcs.ScoreC.clusterScore, Mcs.ScoreC.scoreLoop,
      Mcs.ScoreC.hitScore, Mcs.ScoreC.hitScore.weighHit, Mcs.ScoreC.seenUpdate,
      Mcs.ScoreC.updValue, Mcs.ScoreC.sumValues, List.lookup]
  have hd : Mcs.ScoreC.clusterScore ⟨2, 1, 0, 1, 1, 1⟩
      [(⟨1, "gspD", 20, .mandatory, false, false, false, "gspD"⟩ : Mcs.ScoreC.SHit)] =
      .ok 2 := by
    simp [Mcs.ScoreC.clusterScore, Mcs.ScoreC.scoreLoop,
      Mcs.ScoreC.hitScore, Mcs.ScoreC.hitScore.weighHit, Mcs.ScoreC.seenUpdate,
      Mcs.ScoreC.updValue, Mcs.ScoreC.sumValues, List.lookup]
  have h := C5_system_score_redundancy ⟨2, 1, 0, 1, 1, 1⟩ ⟨["gspD"], []⟩
    [[⟨0, "gspD", 10, .mandatory, false, false, false, "gspD"⟩]] [2] hcl
  have h1 : Mcs.ScoreC.systemScore ⟨2, 1, 0, 1, 1, 1⟩ ⟨["gspD"], []⟩
      [[⟨0, "gspD", 10, .mandatory, false, false, false, "gspD"⟩]] = .ok 2 := by
    rw [h.1]
    norm_num [Mcs.ScoreC.fulfilledFunction]
  have h2 := h.2 [⟨1, "gspD", 20, .mandatory, false, false, false, "gspD"⟩] 2
    [⟨0, "gspD", 10, .mandatory, false, false, false, "gspD"⟩] hd (by simp)
    (by
      intro g
      simp [Mcs.ScoreC.fulfilledFunction])
    2 h1
  simp only [List.cons_append, List.nil_append] at h2
  refine ⟨h1, ?_⟩
  rw [h2]
  norm_num [Mcs.ScoreC.fulfilledFunction]

/-- C6 (evaluation at the failing input): `ComposedScore` sets
`overlapping_genes = len(used_in_systems)`, the number of distinct hits of
the system — not the number of hits shared with other models' systems.
With two tied systems of model M1 — A with one hit that IS contained in an
M2 system, B with two hits contained in no other-model system — the claim
says B (0 overlapping hits) must be returned, but the selector minimizes
the raw hit count and returns A. -/
theorem C6_best_system_overlap_bug :
    Mcs.Sel.bestSystem
      [⟨"A", "M1", 6, [⟨1, 100⟩]⟩, ⟨"B", "M1", 6, [⟨2, 200⟩, ⟨3, 201⟩]⟩]
      [(100, [⟨"A", "M1"⟩, ⟨"X", "M2"⟩]), (200, [⟨"B", "M1"⟩]), (201, [⟨"B", "M1"⟩])] =
      .ok [⟨"A", "M1", 6, [⟨1, 100⟩]⟩] ∧
    Mcs.Sel.specOverlapGenes
      [(100, [⟨"A", "M1"⟩, ⟨"X", "M2"⟩]), (200, [⟨"B", "M1"⟩]), (201, [⟨"B", "M1"⟩])]
      ⟨"A", "M1", 6, [⟨1, 100⟩]⟩ = 1 ∧
    Mcs.Sel.specOverlapGenes
      [(100, [⟨"A", "M1"⟩, ⟨"X", "M2"⟩]), (200, [⟨"B", "M1"⟩]), (201, [⟨"B", "M1"⟩])]
      ⟨"B", "M1", 6, [⟨2, 200⟩, ⟨3, 201⟩]⟩ = 0 := by
  refine ⟨?_, ?_, ?_⟩ <;> rfl

/-- C7 (evaluation at the failing input): `set_multi_system_hit` iterates
`ms_registry.items()` and subscripts the dict with the yielded
`(key, value)` tuple, so any multi-system hit raises `KeyError` instead of
producing MultiSystemHits; with no multi-system hit the clusters come back
untouched with an empty mapping. -/
theorem C7_multi_system_items_bug :
    Mcs.MultiSys.setMultiSystemHit [[⟨0, 5, "gspD", true⟩]] = .error .keyError ∧
    Mcs.MultiSys.setMultiSystemHit [[⟨0, 5, "gspD", false⟩]] =
      .ok ([[⟨0, 5, "gspD", false⟩]], []) := by
  constructor <;> rfl

/-- C8 (evaluation at the failing input): in `_get_true_loners`, when the
first pooled hit of a function is multi-system the loop reads the local
variable `hit` before any assignment (`UnboundLocalError`), instead of
building a `LonerMultiSystemHit` for the i-th hit as the claim states;
the non-multi-system path behaves as claimed (pool the loner singleton,
keep other clusters unchanged and in order). -/
theorem C8_true_loners_unbound_hit_bug :
    Mcs.Loners.getTrueLoners [[⟨0, 5, true, true, "gspD"⟩]] =
      .error .unboundLocalError ∧
    Mcs.Loners.getTrueLoners
      [[⟨0, 5, true, false, "gspD"⟩], [⟨1, 4, false, false, "sctJ"⟩]] =
      .ok ([("gspD", .loner ⟨0, 5, true, false, "gspD"⟩ [])],
           [[⟨1, 4, false, false, "sctJ"⟩]]) := by
  constructor <;> rfl

namespace Mcs.SysM

theorem hasKey_dictIncr (d : List (String × Nat)) (k' k : String) :
    hasKey (dictIncr d k') k = hasKey d k := by
  induction d with
  | nil => rfl
  | cons p t ih =>
    obtain ⟨k0, v⟩ := p
    rw [dictIncr]
    split
    · rfl
    · simp only [hasKey, List.any_cons] at ih ⊢
      rw [ih]

/-- The chain of `match` takes the same branch over counters with the
same key sets, and the key sets survive the increments. -/
theorem processHit_congr (em ea en ef : List (String × SGene))
    {mc ac nc fc mc0 ac0 nc0 fc0 : List (String × Nat)} (h : CHit)
    (hm : keysEq mc mc0) (ha : keysEq ac ac0)
    (hn : keysEq nc nc0) (hf : keysEq fc fc0) :
    (processHit em ea en ef mc ac nc fc h).valid? =
      (processHit em ea en ef mc0 ac0 nc0 fc0 h).valid? ∧
    (processHit em ea en ef mc ac nc fc h).forbidden? =
      (processHit em ea en ef mc0 ac0 nc0 fc0 h).forbidden? ∧
    keysEq (processHit em ea en ef mc ac nc fc h).mc mc0 ∧
    keysEq (processHit em ea en ef mc ac nc fc h).ac ac0 ∧
    keysEq (processHit em ea en ef mc ac nc fc h).nc nc0 ∧
    keysEq (processHit em ea en ef mc ac nc fc h).fc fc0 := by
  have hWm : ∀ x, keysEq (dictIncr mc x) mc0 :=
    fun x k => (hasKey_dictIncr mc x k).trans (hm k)
  have hWa : ∀ x, keysEq (dictIncr ac x) ac0 :=
    fun x k => (hasKey_dictIncr ac x k).trans (ha k)
  have hWn : ∀ x, keysEq (dictIncr nc x) nc0 :=
    fun x k => (hasKey_dictIncr nc x k).trans (hn k)
  have hWf : ∀ x, keysEq (dictIncr fc x) fc0 :=
    fun x k => (hasKey_dictIncr fc x k).trans (hf k)
  unfold processHit
  rw [hm h.gene.name, ha h.gene.name, hn h.gene.name, hf h.gene.name]
  by_cases h1 : hasKey mc0 h.gene.name = true
  · simp only [h1, if_true]
    exact ⟨by trivial, by trivial, hWm _, ha, hn, hf⟩
  · simp only [h1, if_false]
    cases hem : lookupG em h.gene.name with
    | some g => exact ⟨by trivial, by trivial, hWm _, ha, hn, hf⟩
    | none =>
      by_cases h2 : hasKey ac0 h.gene.name = true
      · simp only [h2, if_true]
        exact ⟨by trivial, by trivial, hm, hWa _, hn, hf⟩
      · simp only [h2, if_false]
        cases hea : lookupG ea h.gene.name with
        | some g => exact ⟨by trivial, by trivial, hm, hWa _, hn, hf⟩
        | none =>
          by_cases h3 : hasKey nc0 h.gene.name = true
          · simp only [h3, if_true]
            exact ⟨by trivial, by trivial, hm, ha, hWn _, hf⟩
          · simp only [h3, if_false]
            cases hen : lookupG en h.gene.name with
            | some g => exact ⟨by trivial, by trivial, hm, ha, hWn _, hf⟩
            | none =>
              by_cases h4 : hasKey fc0 h.gene.name = true
              · simp only [h4, if_true]
                exact ⟨by trivial, by trivial, hm, ha, hn, hWf _⟩
              · simp only [h4, if_false]
                cases hef : lookupG ef h.gene.name with
                | some g => exact ⟨by trivial, by trivial, hm, ha, hn, hWf _⟩
                | none => exact ⟨by trivial, by trivial, hm, ha, hn, hf⟩

end Mcs.SysM

namespace Mcs.SysM

/-- The inner hit loop: the collected `valid_hits` are the resolutions of
the cluster's hits, the `valid_clusters` are untouched, the counter key
sets survive. -/
theorem clusterLoop_spec (em ea en ef : List (String × SGene))
    (mc0 ac0 nc0 fc0 : List (String × Nat)) :
    ∀ (hits : List CHit) (st : MState) (vhs : List VH),
      keysEq st.mc mc0 → keysEq st.ac ac0 → keysEq st.nc nc0 → keysEq st.fc fc0 →
      (clusterLoop em ea en ef hits st vhs).2 =
        vhs ++ hits.filterMap (fun h => (processHit em ea en ef mc0 ac0 nc0 fc0 h).valid?) ∧
      (clusterLoop em ea en ef hits st vhs).1.validClusters = st.validClusters ∧
      keysEq (clusterLoop em ea en ef hits st vhs).1.mc mc0 ∧
      keysEq (clusterLoop em ea en ef hits st vhs).1.ac ac0 ∧
      keysEq (clusterLoop em ea en ef hits st vhs).1.nc nc0 ∧
      keysEq (clusterLoop em ea en ef hits st vhs).1.fc fc0 := by
  intro hits
  induction hits with
  | nil =>
    intro st vhs hm ha hn hf
    exact ⟨by simp [clusterLoop], rfl, hm, ha, hn, hf⟩
  | cons h t ih =>
    intro st vhs hm ha hn hf
    obtain ⟨hv, hfb, hm', ha', hn', hf'⟩ := processHit_congr em ea en ef h hm ha hn hf
    rw [clusterLoop]
    have hrec := ih
      { st with
        mc := (processHit em ea en ef st.mc st.ac st.nc st.fc h).mc,
        ac := (processHit em ea en ef st.mc st.ac st.nc st.fc h).ac,
        nc := (processHit em ea en ef st.mc st.ac st.nc st.fc h).nc,
        fc := (processHit em ea en ef st.mc st.ac st.nc st.fc h).fc,
        forbiddenHits :=
          match (processHit em ea en ef st.mc st.ac st.nc st.fc h).forbidden? with
          | some f => st.forbiddenHits ++ [f]
          | none => st.forbiddenHits }
      (match (processHit em ea en ef st.mc st.ac st.nc st.fc h).valid? with
       | some v => vhs ++ [v]
       | none => vhs)
      hm' ha' hn' hf'
    refine ⟨?_, hrec.2.1, hrec.2.2⟩
    rw [hrec.1, List.filterMap_cons, hv]
    cases hres : (processHit em ea en ef mc0 ac0 nc0 fc0 h).valid? with
    | some v => simp
    | none => simp

/-- The outer cluster loop: the closed `valid_clusters` are the clusters
whose hits resolve to at least one valid hit, in order. -/
theorem clustersLoop_spec (em ea en ef : List (String × SGene))
    (mc0 ac0 nc0 fc0 : List (String × Nat)) :
    ∀ (css : List (List CHit)) (st : MState),
      keysEq st.mc mc0 → keysEq st.ac ac0 → keysEq st.nc nc0 → keysEq st.fc fc0 →
      (clustersLoop em ea en ef css st).validClusters =
        st.validClusters ++ css.filterMap (fun c =>
          if (c.filterMap (fun h =>
              (processHit em ea en ef mc0 ac0 nc0 fc0 h).valid?)).isEmpty then none
          else some (c.filterMap (fun h =>
              (processHit em ea en ef mc0 ac0 nc0 fc0 h).valid?))) := by
  intro css
  induction css with
  | nil =>
    intro st _ _ _ _
    simp [clustersLoop]
  | cons c rest ih =>
    intro st hm ha hn hf
    obtain ⟨hvhs, hvc, hm', ha', hn', hf'⟩ :=
      clusterLoop_spec em ea en ef mc0 ac0 nc0 fc0 c st [] hm ha hn hf
    rw [clustersLoop]
    cases hcl : clusterLoop em ea en ef c st [] with
    | mk st' vhs =>
      rw [hcl] at hvhs hvc hm' ha' hn' hf'
      simp only [List.nil_append] at hvhs
      simp only []
      rw [List.filterMap_cons]
      by_cases hemp : (c.filterMap (fun h =>
          (processHit em ea en ef mc0 ac0 nc0 fc0 h).valid?)).isEmpty = true
      · rw [if_pos hemp]
        have hvemp : vhs.isEmpty = true := by rw [hvhs]; exact hemp
        rw [if_pos hvemp]
        rw [ih st' hm' ha' hn' hf', hvc]
      · rw [if_neg hemp]
        have hvemp : vhs.isEmpty = false := by
          rw [hvhs]
          exact Bool.eq_false_iff.mpr hemp
        rw [hvemp]
        simp only [Bool.false_eq_true, if_false]
        rw [ih { st' with validClusters := st'.validClusters ++ [vhs] } hm' ha' hn' hf']
        simp only []
        rw [hvc, hvhs, List.append_assoc]
        rfl

/-- `valid_clusters` of `match`, characterized hit-by-hit. -/
theorem validClustersOf_eq (clusters : List (List CHit)) (m : Model1) :
    validClustersOf clusters m =
      clusters.filterMap (fun c =>
        if (c.filterMap (resolveValid m)).isEmpty then none
        else some (c.filterMap (resolveValid m))) := by
  unfold validClustersOf matchState resolveValid
  rw [clustersLoop_spec _ _ _ _
    (dictFromGenes m.mandatoryGenes) (dictFromGenes m.accessoryGenes)
    (dictFromGenes m.neutralGenes) (dictFromGenes m.forbiddenGenes)
    clusters _ (fun _ => rfl) (fun _ => rfl) (fun _ => rfl) (fun _ => rfl)]
  rfl

theorem validClustersOf_ne_nil (clusters : List (List CHit)) (m : Model1) :
    ∀ c ∈ validClustersOf clusters m, c ≠ [] := by
  intro c hc
  rw [validClustersOf_eq] at hc
  obtain ⟨a, hmem, heq⟩ := List.mem_filterMap.mp hc
  split at heq
  · exact absurd heq (by simp)
  · rename_i hemp
    injection heq with he
    subst he
    intro hnil
    rw [hnil] at hemp
    exact hemp rfl

end Mcs.SysM

namespace Mcs.SysM

theorem isEmpty_iff_len {α : Type} (l : List α) : l.isEmpty = true ↔ l.length = 0 := by
  cases l <;> simp

theorem matchClusters_eq (clusters : List (List CHit)) (m : Model1) :
    matchClusters clusters m =
      (if ¬ ¬ ((occKeys (matchState clusters m).fc).isEmpty = true) ∧
          ¬ ((occKeys (matchState clusters m).mc).length < m.minMandatoryGenesRequired) ∧
          ¬ ((occKeys (matchState clusters m).ac).length +
              (occKeys (matchState clusters m).mc).length < m.minGenesRequired) then
        match (matchState clusters m).validClusters with
        | (vh0 :: _) :: _ =>
          Except.ok (MatchResult.system
            ⟨vh0.hit.repliconName, (matchState clusters m).validClusters⟩)
        | [] :: _ => Except.error PyErr.indexError
        | [] => Except.error PyErr.indexError
      else
        Except.ok (MatchResult.rejected ⟨clusters, String.intercalate "\n"
          ((if ¬ ((occKeys (matchState clusters m).fc).isEmpty = true) then
              [forbiddenMsg (matchState clusters m).forbiddenHits] else []) ++
           (if (occKeys (matchState clusters m).mc).length < m.minMandatoryGenesRequired then
              [mandatoryMsg m.minMandatoryGenesRequired
                (occKeys (matchState clusters m).mc).length] else []) ++
           (if (occKeys (matchState clusters m).ac).length +
               (occKeys (matchState clusters m).mc).length < m.minGenesRequired then
              [genesMsg m.minGenesRequired
                ((occKeys (matchState clusters m).ac).length +
                  (occKeys (matchState clusters m).mc).length)] else []))⟩)) := rfl

end Mcs.SysM

namespace Mcs.SysM

/-- **C1** (amended). `match(clusters, model)` returns a `System` iff no
forbidden gene has a hit, both quorums are reached, **and** at least one
cluster keeps a valid hit (otherwise `System.__init__` raises an
`IndexError` on `clusters[0]`); the returned `System` holds exactly the
clusters of per-hit valid resolutions (neutral hits included, counted in
neither quorum); any failed rule yields a `RejectedClusters` whose
reason newline-joins exactly the failing rules' messages with their
numbers and, for forbidden, the offending gene names. -/
theorem C1_match_decision (clusters : List (List CHit)) (m : Model1) :
    ((∃ S, matchClusters clusters m = Except.ok (MatchResult.system S)) ↔
      (forbiddenPresent clusters m = 0 ∧
       m.minMandatoryGenesRequired ≤ mandatoryPresent clusters m ∧
       m.minGenesRequired ≤ mandatoryPresent clusters m + accessoryPresent clusters m ∧
       validClustersOf clusters m ≠ [])) ∧
    (∀ S, matchClusters clusters m = Except.ok (MatchResult.system S) →
      S.clusters = validClustersOf clusters m ∧
      S.clusters = clusters.filterMap (fun c =>
        if (c.filterMap (resolveValid m)).isEmpty then none
        else some (c.filterMap (resolveValid m)))) ∧
    (∀ r, matchClusters clusters m = Except.ok (MatchResult.rejected r) →
      (forbiddenPresent clusters m ≠ 0 ∨
       mandatoryPresent clusters m < m.minMandatoryGenesRequired ∨
       mandatoryPresent clusters m + accessoryPresent clusters m < m.minGenesRequired) ∧
      r.reason = String.intercalate "\n"
        ((if forbiddenPresent clusters m ≠ 0 then
            [forbiddenMsg (forbiddenHitsOf clusters m)] else []) ++
         (if mandatoryPresent clusters m < m.minMandatoryGenesRequired then
            [mandatoryMsg m.minMandatoryGenesRequired (mandatoryPresent clusters m)] else []) ++
         (if mandatoryPresent clusters m + accessoryPresent clusters m < m.minGenesRequired then
            [genesMsg m.minGenesRequired
              (mandatoryPresent clusters m + accessoryPresent clusters m)] else []))) := by
  have hvcne := validClustersOf_ne_nil clusters m
  have hvceq := validClustersOf_eq clusters m
  simp only [forbiddenPresent, mandatoryPresent, accessoryPresent, validClustersOf,
    forbiddenHitsOf] at hvcne hvceq ⊢
  rw [matchClusters_eq clusters m]
  refine ⟨⟨?_, ?_⟩, ?_, ?_⟩
  · rintro ⟨S, hS⟩
    split at hS
    · rename_i hcond
      obtain ⟨hf, hma, hg⟩ := hcond
      split at hS
      · rename_i heq
        refine ⟨(isEmpty_iff_len _).mp (not_not.mp hf), Nat.not_lt.mp hma, by omega, ?_⟩
        rw [heq]
        simp
      · simp at hS
      · simp at hS
    · simp at hS
  · rintro ⟨hf0, hma, hg, hne⟩
    have hcond : ¬ ¬ ((occKeys (matchState clusters m).fc).isEmpty = true) ∧
        ¬ ((occKeys (matchState clusters m).mc).length < m.minMandatoryGenesRequired) ∧
        ¬ ((occKeys (matchState clusters m).ac).length +
            (occKeys (matchState clusters m).mc).length < m.minGenesRequired) :=
      ⟨not_not.mpr ((isEmpty_iff_len _).mpr hf0), Nat.not_lt.mpr hma, by omega⟩
    rw [if_pos hcond]
    cases hV : (matchState clusters m).validClusters with
    | nil => exact absurd hV hne
    | cons c rest =>
      cases c with
      | nil =>
        exact absurd rfl (hvcne [] (by rw [hV]; exact List.mem_cons_self _ _))
      | cons vh0 vt => exact ⟨_, rfl⟩
  · intro S hS
    split at hS
    · split at hS
      · injection hS with h1
        injection h1 with h2
        subst h2
        exact ⟨rfl, hvceq⟩
      · simp at hS
      · simp at hS
    · simp at hS
  · intro r hR
    split at hR
    · split at hR <;> simp at hR
    · rename_i hcond
      injection hR with h1
      injection h1 with h2
      subst h2
      have hdisj : (occKeys (matchState clusters m).fc).length ≠ 0 ∨
          (occKeys (matchState clusters m).mc).length < m.minMandatoryGenesRequired ∨
          (occKeys (matchState clusters m).mc).length +
            (occKeys (matchState clusters m).ac).length < m.minGenesRequired := by
        by_cases hf : (occKeys (matchState clusters m).fc).length = 0
        · by_cases ha : (occKeys (matchState clusters m).mc).length <
              m.minMandatoryGenesRequired
          · exact Or.inr (Or.inl ha)
          · refine Or.inr (Or.inr ?_)
            by_cases hb : (occKeys (matchState clusters m).ac).length +
                (occKeys (matchState clusters m).mc).length < m.minGenesRequired
            · omega
            · exact absurd ⟨not_not.mpr ((isEmpty_iff_len _).mpr hf), ha, hb⟩ hcond
        · exact Or.inl hf
      refine ⟨hdisj, ?_⟩
      show String.intercalate "\n" _ = String.intercalate "\n" _
      have h1 : (if ¬ ((occKeys (matchState clusters m).fc).isEmpty = true) then
          [forbiddenMsg (matchState clusters m).forbiddenHits] else []) =
          (if (occKeys (matchState clusters m).fc).length ≠ 0 then
            [forbiddenMsg (matchState clusters m).forbiddenHits] else []) :=
        if_congr (not_congr (isEmpty_iff_len _)) rfl rfl
      rw [h1, Nat.add_comm ((occKeys (matchState clusters m).ac).length)
        ((occKeys (matchState clusters m).mc).length)]

/-- **C1** (counterexample to the original claim). With a model holding
no genes (both quorums default to 0) and one cluster whose only hit
names a gene unknown to the model, all three quorum conditions of the
claim hold, yet `match` raises `IndexError` instead of returning a
`System`. -/
theorem C1_match_quorum_counterexample :
    (forbiddenPresent [[⟨0, SGene.node "x" false [] [], "R", 1⟩]]
        ⟨[], [], [], [], none, none⟩ = 0 ∧
     Model1.minMandatoryGenesRequired ⟨[], [], [], [], none, none⟩ ≤
       mandatoryPresent [[⟨0, SGene.node "x" false [] [], "R", 1⟩]]
         ⟨[], [], [], [], none, none⟩ ∧
     Model1.minGenesRequired ⟨[], [], [], [], none, none⟩ ≤
       mandatoryPresent [[⟨0, SGene.node "x" false [] [], "R", 1⟩]]
           ⟨[], [], [], [], none, none⟩ +
         accessoryPresent [[⟨0, SGene.node "x" false [] [], "R", 1⟩]]
           ⟨[], [], [], [], none, none⟩) ∧
    matchClusters [[⟨0, SGene.node "x" false [] [], "R", 1⟩]]
        ⟨[], [], [], [], none, none⟩ =
      Except.error PyErr.indexError :=
  ⟨⟨rfl, by decide, by decide⟩, rfl⟩

/-- **C1** (witness): a model with one mandatory gene and one hit on it
does produce a `System`. -/
theorem C1_match_decision_witness :
    ∃ S, matchClusters [[⟨0, SGene.node "gspD" false [] [], "R", 10⟩]]
        ⟨[SGene.node "gspD" false [] []], [], [], [], none, none⟩ =
      Except.ok (MatchResult.system S) := by
  refine (C1_match_decision _ _).1.mpr ⟨rfl, by decide, by decide, ?_⟩
  rw [show validClustersOf [[⟨0, SGene.node "gspD" false [] [], "R", 10⟩]]
      ⟨[SGene.node "gspD" false [] []], [], [], [], none, none⟩ =
      [[⟨⟨0, SGene.node "gspD" false [] [], "R", 10⟩, SGene.node "gspD" false [] [],
        GeneStatus.mandatory⟩]] from rfl]
  exact List.cons_ne_nil _ _

end Mcs.SysM
